import Mathlib

/-!
# Verification of the kitchen-game bot engine

Shallow embedding of the per-turn scheduling / coordination engine found in
`src/bots/balanced_bot.py`, `src/bots/pp_bot.py`, `src/bots/copy.py` and
`src/bots/real_bot.py` (plus `src/bots/helpers/locations.py`), together with
proofs and refutations of the specified properties.

Conventions of the embedding:
* grid coordinates are integers (`Int × Int`), exactly as Python's ints;
* Python `set` objects used only through membership are embedded as `List`s
  with `∈`;
* Python floats appearing in order scoring are embedded as `ℚ` (every
  operation performed on them by the code — sums/differences/halving of small
  integers — is exact in binary floating point, so `ℚ` is faithful);
* fallible evaluation (KeyError / TypeError / NameError) is embedded with
  `Except PyErr`;
* external simulator reads (`controller.get_*`) are inputs packaged in world
  records; the mutating primitives (`move`, `buy`, …) are collected in traces.
-/

namespace KitchenBots

/-- A grid coordinate, as in the Python tuples `(x, y)`. -/
abbrev Pos := Int × Int

/-- Chebyshev distance `max(abs(ax - bx), abs(ay - by))` used throughout the
bots for adjacency tests. -/
def cheb (a b : Pos) : Int := max (a.1 - b.1).natAbs (a.2 - b.2).natAbs

/-- The neighbour offsets enumerated by the Python double loop
`for dx in [-1,0,1]: for dy in [-1,0,1]:` with `(0,0)` skipped, in exactly
that order. -/
def deltas : List Pos :=
  [(-1, -1), (-1, 0), (-1, 1), (0, -1), (0, 1), (1, -1), (1, 0), (1, 1)]

/-- The static map: `map_copy` as used by the bots (`width`, `height`,
`is_tile_walkable`). -/
structure MapD where
  width : Nat
  height : Nat
  walkable : Int → Int → Bool

/-- The bounds test `0 <= nx < w and 0 <= ny < h` from `get_bfs_path`. -/
def MapD.inBounds (m : MapD) (p : Pos) : Bool :=
  0 ≤ p.1 && p.1 < (m.width : Int) && 0 ≤ p.2 && p.2 < (m.height : Int)

/-! ## `balanced_bot.get_bfs_path` (identical code in `pp_bot.get_bfs_path`)

```python
def get_bfs_path(self, start, target_x, target_y, blocked_tiles):
    queue = deque([(start, None)])
    visited = {start}
    w, h = self.map.width, self.map.height
    while queue:
        (cx, cy), first_step = queue.popleft()
        if max(abs(cx - target_x), abs(cy - target_y)) <= 1:
            return first_step if first_step else (0, 0)
        for dx in [-1, 0, 1]:
            for dy in [-1, 0, 1]:
                if dx == 0 and dy == 0: continue
                nx, ny = cx + dx, cy + dy
                if (nx, ny) in visited: continue
                if not (0 <= nx < w and 0 <= ny < h): continue
                if not self.map.is_tile_walkable(nx, ny): continue
                if (nx, ny) in blocked_tiles: continue
                visited.add((nx, ny))
                new_first = first_step if first_step else (dx, dy)
                queue.append(((nx, ny), new_first))
    return None
```
-/

/-- One queue entry: position plus remembered first step (`None` at the
start node). -/
abbrev QEntry := Pos × Option Pos

/-- One iteration of the inner double loop of `get_bfs_path`: try the
neighbour of `c` in direction `d`, threading queue and visited set. -/
def expandStep (m : MapD) (blocked : List Pos) (c : Pos) (fs : Option Pos)
    (acc : List QEntry × List Pos) (d : Pos) : List QEntry × List Pos :=
  let n : Pos := (c.1 + d.1, c.2 + d.2)
  if n ∈ acc.2 then acc
  else if !m.inBounds n then acc
  else if !m.walkable n.1 n.2 then acc
  else if n ∈ blocked then acc
  else (acc.1 ++ [(n, some (fs.getD d))], n :: acc.2)

/-- The inner double loop of `get_bfs_path`: expand the popped node `(c, fs)`
over `deltas`, threading the queue and the visited set. -/
def bfsExpand (m : MapD) (blocked : List Pos) (c : Pos) (fs : Option Pos)
    (q : List QEntry) (visited : List Pos) : List QEntry × List Pos :=
  deltas.foldl (expandStep m blocked c fs) (q, visited)

/-- The `while queue:` loop of `balanced_bot.get_bfs_path`, fuelled.  The fuel
never runs out when it is at least `queue.length + (w*h + 1 - visited.length)`
(lemma `bfsAux_measure` area below): each iteration pops one entry and every
entry ever appended adds a new in-bounds cell to `visited`. -/
def bfsAux (m : MapD) (blocked : List Pos) (target : Pos) :
    Nat → List QEntry → List Pos → Option Pos
  | 0, _, _ => none
  | _ + 1, [], _ => none
  | fuel + 1, (c, fs) :: rest, visited =>
    if cheb c target ≤ 1 then some (fs.getD (0, 0))
    else
      let s := bfsExpand m blocked c fs rest visited
      bfsAux m blocked target fuel s.1 s.2

/-- Embeds `balanced_bot.get_bfs_path` / `pp_bot.get_bfs_path`.  The fuel
`w*h + 2` is an upper bound on the number of loop iterations, so the
embedding computes exactly what the unbounded Python loop computes. -/
def get_bfs_path (m : MapD) (start : Pos) (target : Pos) (blocked : List Pos) :
    Option Pos :=
  bfsAux m blocked target (m.width * m.height + 2) [(start, none)] [start]

/-! ## `copy.get_bfs_path`

The variant in `src/bots/copy.py` differs in exactly one guard: the block
list (current bot positions minus the start) is consulted only while
`first_step is None`:

```python
bot_positions_copy = bot_positions - {start}
...
            if first_step is None and (nx, ny) in bot_positions_copy:
                continue
```
-/

/-- One iteration of `copy.get_bfs_path`'s inner loop: bot positions forbid
a neighbour only when the popped node still has `first_step is None`. -/
def copyExpandStep (m : MapD) (bots : List Pos) (c : Pos) (fs : Option Pos)
    (acc : List QEntry × List Pos) (d : Pos) : List QEntry × List Pos :=
  let n : Pos := (c.1 + d.1, c.2 + d.2)
  if n ∈ acc.2 then acc
  else if !m.inBounds n then acc
  else if !m.walkable n.1 n.2 then acc
  else if fs = none && n ∈ bots then acc
  else (acc.1 ++ [(n, some (fs.getD d))], n :: acc.2)

/-- Inner expansion loop of `copy.get_bfs_path`. -/
def copyBfsExpand (m : MapD) (bots : List Pos) (c : Pos) (fs : Option Pos)
    (q : List QEntry) (visited : List Pos) : List QEntry × List Pos :=
  deltas.foldl (copyExpandStep m bots c fs) (q, visited)

/-- The `while queue:` loop of `copy.get_bfs_path`, fuelled. -/
def copyBfsAux (m : MapD) (bots : List Pos) (target : Pos) :
    Nat → List QEntry → List Pos → Option Pos
  | 0, _, _ => none
  | _ + 1, [], _ => none
  | fuel + 1, (c, fs) :: rest, visited =>
    if cheb c target ≤ 1 then some (fs.getD (0, 0))
    else
      let s := copyBfsExpand m bots c fs rest visited
      copyBfsAux m bots target fuel s.1 s.2

/-- Embeds `copy.get_bfs_path` with the per-turn cached bot-position set as input;
`bot_positions_copy = bot_positions - {start}` is the initial filter. -/
def copy_get_bfs_path (m : MapD) (botPositions : List Pos) (start : Pos)
    (target : Pos) : Option Pos :=
  copyBfsAux m (botPositions.filter (· ≠ start)) target
    (m.width * m.height + 2) [(start, none)] [start]

/-- Embeds `copy.move_towards` (lines 141–151): returns `True` when already
Chebyshev-adjacent to the target and otherwise possibly issues one move.
The issued move's destination is returned alongside, modelling the
`controller.move(bot_id, step[0], step[1])` call. -/
def copy_move_towards (m : MapD) (botPositions : List Pos) (b : Pos)
    (target : Pos) : Bool × Option Pos :=
  if cheb b target ≤ 1 then (true, none)
  else
    match copy_get_bfs_path m botPositions b target with
    | some s => if s ≠ (0, 0) then (false, some (b.1 + s.1, b.2 + s.2)) else (false, none)
    | none => (false, none)

/-! ## `balanced_bot.move_towards` and the per-turn executor

```python
def move_towards(self, controller, bot_id, target_x, target_y) -> bool:
    bx, by = self.current_positions[bot_id]
    if max(abs(bx - target_x), abs(by - target_y)) <= 1:
        self.future_positions[bot_id] = (bx, by)
        return True
    blocked = set()
    for other_id, pos in self.future_positions.items():
        if other_id != bot_id: blocked.add(pos)
    for other_id, pos in self.current_positions.items():
         if other_id != bot_id and other_id not in self.future_positions:
             blocked.add(pos)
    step = self.get_bfs_path((bx, by), target_x, target_y, blocked)
    if step and step != (0, 0):
        if controller.move(bot_id, step[0], step[1]):
            self.future_positions[bot_id] = (bx + step[0], by + step[1])
            return False
    self.future_positions[bot_id] = (bx, by)
    return False
```

`current_positions` / `future_positions` are Python dicts keyed by bot id;
they are embedded as association lists used only through key lookup,
key-replacing store, and iteration over their entries (the iteration order
is irrelevant: entries only feed a `set`).  `controller.move` is embedded as
accepting the issued unit step (the engine's own coordination, not the
simulator's veto, is the subject of the claims). -/

/-- Python runtime errors that the embedded code can raise. -/
inductive PyErr
  | keyError (k : String)
  | typeError (msg : String)
  | nameError (n : String)
  | attributeError (a : String)
  | indexError
deriving DecidableEq, Repr

/-- Dict lookup `d[k]` for `int → (x, y)` dicts (Python `KeyError` when
absent). -/
def lookupPos (l : List (Nat × Pos)) (k : Nat) : Option Pos :=
  (l.find? (fun e => e.1 = k)).map (·.2)

/-- Dict store `d[k] = v` (replaces any existing binding for `k`). -/
def storePos (l : List (Nat × Pos)) (k : Nat) (v : Pos) : List (Nat × Pos) :=
  (l.filter (fun e => e.1 ≠ k)) ++ [(k, v)]

/-- The `blocked` set assembled by `balanced_bot.move_towards`: other bots'
future positions, plus current positions of bots with no future position
yet. -/
def blockedFor (curr fut : List (Nat × Pos)) (b : Nat) : List Pos :=
  (fut.filter (fun e => e.1 ≠ b)).map (·.2) ++
    ((curr.filter (fun e => e.1 ≠ b && (lookupPos fut e.1).isNone)).map (·.2))

/-- Embeds `balanced_bot.move_towards` (lines 102–125).  Returns the `True`/`False`
result, the destination of the issued `controller.move` (if any), and the
updated `future_positions`. -/
def move_towards (m : MapD) (curr fut : List (Nat × Pos)) (b : Nat)
    (target : Pos) : Except PyErr (Bool × Option Pos × List (Nat × Pos)) :=
  match lookupPos curr b with
  | none => Except.error (PyErr.keyError "bot_id")
  | some bp =>
    if cheb bp target ≤ 1 then
      Except.ok (true, none, storePos fut b bp)
    else
      match get_bfs_path m bp target (blockedFor curr fut b) with
      | some s =>
        if s ≠ (0, 0) then
          Except.ok (false, some (bp.1 + s.1, bp.2 + s.2),
            storePos fut b (bp.1 + s.1, bp.2 + s.2))
        else Except.ok (false, none, storePos fut b bp)
      | none => Except.ok (false, none, storePos fut b bp)

/-- One agent's per-turn movement request in `balanced_bot`'s turn executor:
either `stay()` (`future_positions[bot_id] = current_positions[bot_id]`,
used by every branch that performs no movement) or a `move_towards` call
with some target.  Every branch of `play_provider_bot` /
`play_assembler_bot` resolves to exactly one of these two for its agent. -/
abbrev MoveReq := Nat × Option Pos

/-- The sequential turn executor of `balanced_bot.play_turn`: agents are
processed one after the other (`play_provider_bot` then
`play_assembler_bot`), each request threading `future_positions`.  Returns
the list of issued moves `(bot, destination)` and the final
`future_positions`. -/
def execTurn (m : MapD) (curr : List (Nat × Pos)) :
    List MoveReq → List (Nat × Pos) →
    Except PyErr (List (Nat × Pos) × List (Nat × Pos))
  | [], fut => Except.ok ([], fut)
  | (b, none) :: rest, fut =>
    match lookupPos curr b with
    | none => Except.error (PyErr.keyError "bot_id")
    | some bp => execTurn m curr rest (storePos fut b bp)
  | (b, some t) :: rest, fut =>
    match move_towards m curr fut b t with
    | Except.error e => Except.error e
    | Except.ok r =>
      match execTurn m curr rest r.2.2 with
      | Except.error e => Except.error e
      | Except.ok (trace, futF) =>
        Except.ok ((match r.2.1 with
          | some d => [(b, d)]
          | none => []) ++ trace, futF)

/-! ## Order model and `balanced_bot` order logic

`FoodType` and `ShopCosts` live in the external `game_constants` module
(not part of this repository's sources); food attributes are therefore
parameters (`List FoodSpec`), with the concrete table used in scenario
proofs modelled from the spec. -/

/-- One `FoodType` member: `food_name`, `buy_cost`, `can_chop`, `can_cook`. -/
structure FoodSpec where
  food_name : String
  buy_cost : Int
  can_chop : Bool
  can_cook : Bool
deriving DecidableEq, Repr

/-- Modelled from the spec: the scenario food table — MEAT is cook-required
with `buy_cost` 10, ONIONS is chop-only with `buy_cost` 5 (the spec's order
scoring scenario); the plate's `buy_cost` is 2. -/
def specFoodTypes : List FoodSpec :=
  [⟨"MEAT", 10, false, true⟩, ⟨"ONIONS", 5, true, false⟩]

/-- Modelled from the spec: `ShopCosts.PLATE.buy_cost` = 2. -/
def specPlateCost : Int := 2

/-- An order dict as served by `controller.get_orders`. -/
structure OrderD where
  order_id : Int
  required : List String
  reward : ℚ
  expires_turn : Int
  is_active : Bool
  completed_turn : Option Int
deriving DecidableEq, Repr

/-- Embeds `get_food_type_by_name`: linear scan over the `FoodType` enum. -/
def get_food_type_by_name (fts : List FoodSpec) (name : String) :
    Option FoodSpec :=
  fts.find? (fun ft => ft.food_name = name)

/-- Embeds `balanced_bot.estimate_order_cost`: sum of `buy_cost` over recognized
required ingredients. -/
def estimate_order_cost (fts : List FoodSpec) (o : OrderD) : Int :=
  o.required.foldl
    (fun total n =>
      match get_food_type_by_name fts n with
      | some ft => total + ft.buy_cost
      | none => total) 0

/-- Embeds `balanced_bot.estimate_order_time` with the `__init__` weights
`time_simple = 1`, `time_chop = 2`, `time_cook = 4`. -/
def estimate_order_time (fts : List FoodSpec) (o : OrderD) : Int :=
  o.required.foldl
    (fun total n =>
      match get_food_type_by_name fts n with
      | some ft =>
        total + 1 + (if ft.can_chop then 2 else 0) + (if ft.can_cook then 4 else 0)
      | none => total) 0

/-- Embeds `balanced_bot.order_score` (lines 210–216): the pair
`(reward − 0.5·cost − 1.0·time_est, −time_left)` with
`time_left = max(0, expires_turn − current_turn)`.  The float arithmetic is
exact, so `ℚ` is faithful. -/
def order_score (fts : List FoodSpec) (o : OrderD) (now : Int) : ℚ × Int :=
  let reward : ℚ := o.reward
  let cost : ℚ := (estimate_order_cost fts o : ℚ)
  let time_est : ℚ := (estimate_order_time fts o : ℚ)
  let score := reward - (1 / 2 : ℚ) * cost - (1 : ℚ) * time_est
  let time_left := max 0 (o.expires_turn - now)
  (score, -time_left)

/-- Python's `<` on the score pairs (tuple comparison is lexicographic). -/
def tupLt (a b : ℚ × Int) : Bool :=
  if a.1 < b.1 then true
  else if a.1 = b.1 then decide (a.2 < b.2)
  else false

/-- Embeds `balanced_bot.select_best_order`: `max(active, key=order_score)` —
Python's `max` keeps the first element whose key no later key strictly
exceeds. -/
def select_best_order (fts : List FoodSpec) (orders : List OrderD)
    (now : Int) : Option OrderD :=
  match orders.filter (·.is_active) with
  | [] => none
  | o :: rest =>
    some (rest.foldl
      (fun best o' =>
        if tupLt (order_score fts best now) (order_score fts o' now) then o'
        else best) o)

/-- Embeds `balanced_bot.get_order_by_id`. -/
def get_order_by_id (orders : List OrderD) (oid : Option Int) :
    Option OrderD :=
  match oid with
  | none => none
  | some i => orders.find? (fun o => o.order_id = i)

/-- Embeds `balanced_bot.is_order_expired`. -/
def is_order_expired (od : Option OrderD) (now : Int) : Bool :=
  match od with
  | none => false
  | some o =>
    match o.completed_turn with
    | some _ => false
    | none => decide (o.expires_turn < now)

/-- The `balanced_bot` scheduler fields touched by order analysis and order
switching (`__init__` lines 27–46). -/
structure Sched where
  current_order : Option OrderD
  current_order_id : Option Int
  active_chop_loc : Option Pos
  active_assemble_loc : Option Pos
  cooked_ingredients : List FoodSpec
  cooked_queue : List FoodSpec
  simple_ingredients : List FoodSpec
  chopped_ingredients : List FoodSpec
  chop_queue : List FoodSpec
  cooked_count : Int
  cooked_total : Int
  current_chop_ingredient : Option FoodSpec
  provider_state : Int
  assembler_state : Int
deriving DecidableEq, Repr

/-- The categorization loop of `balanced_bot.analyze_order`:
`can_cook → cooked_ingredients`, `elif can_chop → chopped_ingredients`,
`else → simple_ingredients`; unrecognized names are skipped. -/
def categorize (fts : List FoodSpec) (required : List String) :
    List FoodSpec × List FoodSpec × List FoodSpec :=
  required.foldl
    (fun acc n =>
      match get_food_type_by_name fts n with
      | none => acc
      | some ft =>
        if ft.can_cook then (acc.1 ++ [ft], acc.2.1, acc.2.2)
        else if ft.can_chop then (acc.1, acc.2.1 ++ [ft], acc.2.2)
        else (acc.1, acc.2.1, acc.2.2 ++ [ft]))
    ([], [], [])

/-- Embeds `balanced_bot.analyze_order` (lines 235–256): early-returns when the
order id matches the stored one, otherwise resets the queues and
re-categorizes the requirements. -/
def analyze_order (fts : List FoodSpec) (s : Sched) (o : OrderD) : Sched :=
  if s.current_order_id = some o.order_id then s
  else
    let c := categorize fts o.required
    { s with
      current_order := some o
      current_order_id := some o.order_id
      active_chop_loc := none
      active_assemble_loc := none
      cooked_ingredients := c.1
      chopped_ingredients := c.2.1
      simple_ingredients := c.2.2
      chop_queue := c.2.1
      current_chop_ingredient := none
      cooked_count := 0
      cooked_total := (c.1.length : Int)
      cooked_queue := c.1 }

/-- The order-switching block of `balanced_bot.play_turn` (lines 282–307):
select the best active order, check the stored order's liveness, and decide
whether to switch (re-analyzing and resetting both state machines when it
does). -/
def updateOrderSelection (fts : List FoodSpec) (s : Sched)
    (orders : List OrderD) (now : Int) : Sched :=
  let best := select_best_order fts orders now
  let cdict := get_order_by_id orders s.current_order_id
  let cactive := match cdict with
    | some o => o.is_active
    | none => false
  let cexpired := is_order_expired cdict now
  match best with
  | none => s
  | some b =>
    let shouldSwitch :=
      if s.current_order = none then true
      else if cexpired then true
      else if some b.order_id ≠ s.current_order_id then
        if !cactive then true
        else
          match s.current_order with
          | some co =>
            decide ((order_score fts co now).1 < (order_score fts b now).1)
          | none => false
      else false
    if shouldSwitch then
      let s' := analyze_order fts s b
      { s' with provider_state := 0, assembler_state := 0 }
    else s

/-! ## `balanced_bot.get_idle_tile` (identical code in `pp_bot`) -/

/-- A live tile as returned by `controller.get_tile`. -/
structure TileD where
  is_walkable : Bool
deriving DecidableEq, Repr

/-- The row-major scan order of `get_idle_tile`'s double loop
(`for x in range(width): for y in range(height):`). -/
def scanOrder (m : MapD) : List Pos :=
  (List.range m.width).flatMap
    (fun (x : Nat) =>
      (List.range m.height).map (fun (y : Nat) => (((x : Int), (y : Int)) : Pos)))

/-- The per-tile test of `get_idle_tile`: the tile exists, is walkable, and
is not Chebyshev-adjacent to any critical location. -/
def idleOk (tiles : Int → Int → Option TileD) (critical : List Pos)
    (p : Pos) : Bool :=
  (match tiles p.1 p.2 with
   | none => false
   | some t => t.is_walkable) &&
  !(critical.any (fun c => cheb p c ≤ 1))

/-- Embeds `balanced_bot.get_idle_tile` (lines 161–172): returns the cache when
set (a position tuple is always truthy), otherwise the first tile in scan
order that is walkable and not adjacent to
`set(filter(None, [shop_loc, cooker_loc, submit_loc]))`. -/
def get_idle_tile (m : MapD) (tiles : Int → Int → Option TileD)
    (cached : Option Pos) (shop cooker submit : Option Pos) : Option Pos :=
  match cached with
  | some c => some c
  | none =>
    let critical := [shop, cooker, submit].filterMap id
    (scanOrder m).find? (idleOk tiles critical)

/-! ## Action-issuing fragments

An issued action primitive: its name, the acting bot and the target
location. -/

structure ActionCall where
  name : String
  bot : Nat
  loc : Pos
deriving DecidableEq, Repr

/-- The state-1 "Buy Pan" branch of `balanced_bot.play_provider_bot`
(lines 367–378), the cited action-issuing fragment:

```python
elif self.provider_state == 1: # Buy Pan
    if holding:
        self.provider_state = 2
        stay()
    elif self.shop_loc:
        if money >= ShopCosts.PAN.buy_cost:
            if self.move_towards(controller, bot_id, self.shop_loc[0], self.shop_loc[1]):
                controller.buy(bot_id, ShopCosts.PAN, self.shop_loc[0], self.shop_loc[1])
        else:
            abort_order()
    else:
        stay()
```

Returns the issued action calls together with the updated scheduler and
`future_positions`.  `holding` is any (truthy) held item; `panCost` is the
external `ShopCosts.PAN.buy_cost`. -/
def providerState1 (m : MapD) (curr fut : List (Nat × Pos)) (b : Nat)
    (s : Sched) (holding : Bool) (shopLoc : Option Pos) (money panCost : Int) :
    Except PyErr (List ActionCall × Sched × List (Nat × Pos)) :=
  match lookupPos curr b with
  | none => Except.error (PyErr.keyError "bot_id")
  | some bp =>
    if holding then
      Except.ok ([], { s with provider_state := 2 }, storePos fut b bp)
    else
      match shopLoc with
      | some sh =>
        if panCost ≤ money then
          match move_towards m curr fut b sh with
          | Except.error e => Except.error e
          | Except.ok r =>
            if r.1 then
              Except.ok ([⟨"buy", b, sh⟩], s, r.2.2)
            else
              Except.ok ([], s, r.2.2)
        else
          -- abort_order(): drop the order id, go idle, stay()
          Except.ok ([],
            { s with current_order_id := none, provider_state := 100 },
            storePos fut b bp)
      | none => Except.ok ([], s, storePos fut b bp)

/-- Output of a `copy.py` state-machine fragment: the destination of the
`controller.move` issued through `move_towards` (if any), the other action
primitives invoked, and the updated state fields. -/
structure CopyFragOut where
  moveDest : Option Pos
  actions : List ActionCall
  provider_state : Int
  assembler_state : Int
  pan_on_cooker : Bool
  must_move_provider : Bool
  must_move_assembler : Bool
deriving DecidableEq, Repr

/-- The state-2 "Place pan" branch of `copy.play_provider_bot`:

```python
elif self.provider_state == 2:
    if self.cooker_loc:
        trying_move_towards = self.move_towards(controller, bot_id, self.cooker_loc[0], self.cooker_loc[1], current_turn)
        self.must_move_assembler = not trying_move_towards
        if trying_move_towards:
            if controller.place(bot_id, self.cooker_loc[0], self.cooker_loc[1]):
                self.pan_on_cooker = True
                self.provider_state = 3
```

`placeOk` is the external result of `controller.place`. -/
def copyProviderState2 (m : MapD) (botPositions : List Pos) (b : Nat)
    (bp : Pos) (cookerLoc : Option Pos) (placeOk : Bool)
    (st : CopyFragOut) : CopyFragOut :=
  match cookerLoc with
  | none => st
  | some ck =>
    let r := copy_move_towards m botPositions bp ck
    let st := { st with moveDest := r.2, must_move_assembler := !r.1 }
    if r.1 then
      let st := { st with actions := st.actions ++ [⟨"place", b, ck⟩] }
      if placeOk then { st with pan_on_cooker := true, provider_state := 3 }
      else st
    else st

/-- The state-0 "Buy plate" branch of `copy.play_assembler_bot`:

```python
if self.assembler_state == 0:
    orders = controller.get_orders(team)
    if not orders:
        if self.must_move_assembler:
            controller.move(bot_id, random.choice([-1, 1]), random.choice([-1, 1]))
        return
    if holding:
        self.assembler_state = 1
    elif self.provider_state >= 7 or self.cooked_total == 0:
        if self.shop_loc and money >= ShopCosts.PLATE.buy_cost:
            trying_move_towards = self.move_towards(controller, bot_id, self.shop_loc[0], self.shop_loc[1], current_turn)
            self.must_move_provider = not trying_move_towards
            if trying_move_towards:
                controller.buy(bot_id, ShopCosts.PLATE, self.shop_loc[0], self.shop_loc[1])
    else:
        if self.must_move_assembler:
            controller.move(bot_id, random.choice([-1, 1]), random.choice([-1, 1]))
```

The `random.choice` pair is the input `rand` (randomness as an oracle). -/
def copyAssemblerState0 (m : MapD) (botPositions : List Pos) (b : Nat)
    (bp : Pos) (ordersNonempty : Bool) (holding : Bool)
    (cooked_total : Int) (shopLoc : Option Pos) (money plateCost : Int)
    (rand : Pos) (st : CopyFragOut) : CopyFragOut :=
  if !ordersNonempty then
    if st.must_move_assembler then
      { st with moveDest := some (bp.1 + rand.1, bp.2 + rand.2) }
    else st
  else if holding then { st with assembler_state := 1 }
  else if st.provider_state ≥ 7 || cooked_total = 0 then
    match shopLoc with
    | some sh =>
      if plateCost ≤ money then
        let r := copy_move_towards m botPositions bp sh
        let st := { st with moveDest := r.2, must_move_provider := !r.1 }
        if r.1 then { st with actions := st.actions ++ [⟨"buy", b, sh⟩] }
        else st
      else st
    | none => st
  else
    if st.must_move_assembler then
      { st with moveDest := some (bp.1 + rand.1, bp.2 + rand.2) }
    else st

/-! ## `helpers/locations.py` and `real_bot.py`

`real_bot.py` builds its location table with
`helpers.locations.find_important_locations`, whose dict maps each category
key to a *single* `(x, y)` tuple or `None` (and has no `"BOX"`/`"COUNTER"`
keys at all) — unlike the per-bot `find_important_locations` methods of the
other bots, which return lists.  Dict accesses are embedded with `Except`
so that `KeyError`/`TypeError`/`NameError` behaviour is explicit. -/

/-- The static map as seen by `helpers`: tile names per cell. -/
structure MapT where
  width : Nat
  height : Nat
  tile_name : Nat → Nat → String

/-- Dict lookup `d[k]` (Python `KeyError` when the key is absent). -/
def dictGet {α : Type} (d : List (String × α)) (k : String) :
    Except PyErr α :=
  match d.find? (fun e => e.1 = k) with
  | some e => Except.ok e.2
  | none => Except.error (PyErr.keyError k)

/-- Dict store for an existing key. -/
def dictSet {α : Type} (d : List (String × α)) (k : String) (v : α) :
    List (String × α) :=
  d.map (fun e => if e.1 = k then (k, v) else e)

/-- The `tile_name in locations` membership test. -/
def dictHasKey {α : Type} (d : List (String × α)) (k : String) : Bool :=
  d.any (fun e => e.1 = k)

/-- Python `min(xs, key=k)`: first element whose key no later key strictly
undercuts. -/
def pyMinBy {α : Type} (key : α → Int) : List α → Option α
  | [] => none
  | x :: rest =>
    some (rest.foldl (fun best y => if key y < key best then y else best) x)

/-- Python `max(xs, key=k)`. -/
def pyMaxBy {α : Type} (key : α → Int) : List α → Option α
  | [] => none
  | x :: rest =>
    some (rest.foldl (fun best y => if key best < key y then y else best) x)

/-- The scan order of `helpers.find_important_locations`
(`for x in range(width): for y in range(height):`). -/
def scanOrderT (mt : MapT) : List (Nat × Nat) :=
  (List.range mt.width).flatMap
    (fun x => (List.range mt.height).map (fun y => (x, y)))

/-- The initial category dict of `helpers.locations.find_important_locations`
(note its key set: it has no `"BOX"` and no `"COUNTER"` key). -/
def helpersInit : List (String × Option Pos) :=
  [("COOKER", none), ("SINK", none), ("SINKTABLE", none),
   ("SUBMIT", none), ("SHOP", none), ("TRASH", none),
   ("CHOP_COUNTER", none), ("ASSEMBLY_COUNTER", none),
   ("WAITING_ZONE", none)]

/-- The grid scan of `helpers.locations.find_important_locations`: category
hits overwrite the dict entry (later hits win), `"COUNTER"`/`"FLOOR"` tiles
are collected into lists. -/
def helpersScan (mt : MapT) :
    List (String × Option Pos) × List Pos × List Pos :=
  (scanOrderT mt).foldl
    (fun (acc : List (String × Option Pos) × List Pos × List Pos) xy =>
      let tn := mt.tile_name xy.1 xy.2
      let p : Pos := ((xy.1 : Int), (xy.2 : Int))
      if dictHasKey acc.1 tn then (dictSet acc.1 tn (some p), acc.2)
      else if tn = "COUNTER" then (acc.1, acc.2.1 ++ [p], acc.2.2)
      else if tn = "FLOOR" then (acc.1, acc.2.1, acc.2.2 ++ [p])
      else acc)
    (helpersInit, [], [])

/-- Reads `locations[k]` as a plain lookup (keys are statically present where this
is used). -/
def valOf (locs : List (String × Option Pos)) (k : String) : Option Pos :=
  ((locs.find? (fun e => e.1 = k)).map (·.2)).join

/-- Heuristic 2 of `helpers.locations.find_important_locations`:
`CHOP_COUNTER` is the counter nearest (Chebyshev) to the shop. -/
def heurChop (locs : List (String × Option Pos)) (counters : List Pos) :
    List (String × Option Pos) :=
  match valOf locs "SHOP" with
  | some sp =>
    if counters ≠ [] then
      dictSet locs "CHOP_COUNTER" (pyMinBy (fun c => cheb c sp) counters)
    else locs
  | none => locs

/-- Heuristic 3: `ASSEMBLY_COUNTER` is the counter nearest to the cooker,
preferring one that is not the `CHOP_COUNTER`. -/
def heurAssembly (locs : List (String × Option Pos)) (counters : List Pos) :
    List (String × Option Pos) :=
  match valOf locs "COOKER" with
  | some cp =>
    if counters ≠ [] then
      let chopVal := valOf locs "CHOP_COUNTER"
      let candidates := counters.filter (fun c => chopVal ≠ some c)
      let candidates := if candidates = [] then counters else candidates
      dictSet locs "ASSEMBLY_COUNTER" (pyMinBy (fun c => cheb c cp) candidates)
    else locs
  | none => locs

/-- Heuristic 4: `WAITING_ZONE` is the floor tile furthest from the cooker
(the first floor tile when there is no cooker). -/
def heurWaiting (locs : List (String × Option Pos)) (floors : List Pos) :
    List (String × Option Pos) :=
  match valOf locs "COOKER" with
  | some cp =>
    if floors ≠ [] then
      dictSet locs "WAITING_ZONE" (pyMaxBy (fun c => cheb c cp) floors)
    else locs
  | none =>
    if floors ≠ [] then dictSet locs "WAITING_ZONE" floors.head?
    else locs

/-- Embeds `helpers.locations.find_important_locations`: the scan followed by the
three heuristics (each reading the live, possibly already-updated dict, as
the Python does; the `"SHOP"`/`"COOKER"` values the later heuristics read
are untouched by the earlier ones). -/
def helpers_find_important_locations (mt : MapT) :
    List (String × Option Pos) :=
  let scanned := helpersScan mt
  heurWaiting (heurAssembly (heurChop scanned.1 scanned.2.1) scanned.2.1)
    scanned.2.2

/-- Iterating a helpers dict value with 2-tuple unpacking,
`[... for (x, y) in value]`: `None` is not iterable, and iterating an
`(x, y)` int pair yields ints that cannot be unpacked into two names. -/
def pyIterPairs : Option Pos → Except PyErr (List Pos)
  | none => Except.error (PyErr.typeError "NoneType is not iterable")
  | some _ => Except.error (PyErr.typeError "cannot unpack non-iterable int")

/-- Embeds `real_bot.BotPlayer.__init__` (lines 19–47), up to its first fault.  The
effectful steps are the dict accesses: line 26 `self.locations["BOX"]`
(whose comprehension would unpack the value), line 30
`self.locations["COOKER"]` likewise, line 34
`self.locations["COUNTER"][-1]`; the remaining statements are plain
attribute assignments.  The `"BOX"` access necessarily raises. -/
def realBotInit (mt : MapT) : Except PyErr (List (String × Option Pos)) := do
  let locs := helpers_find_important_locations mt
  -- self.boxes = [(x,y) for (x,y) in self.locations["BOX"]]
  let boxv ← dictGet locs "BOX"
  let _ ← pyIterPairs boxv
  -- self.cookers = [(True, False, x, y) for (x,y) in self.locations["COOKER"]]
  let cookv ← dictGet locs "COOKER"
  let _ ← pyIterPairs cookv
  -- self.assembly_counter = self.locations["COUNTER"][-1]
  let _ ← dictGet locs "COUNTER"
  Except.ok locs

/-- The neighbour order of `real_bot.get_bfs_path`
(`for dx in [0, -1, 1]: for dy in [0, -1, 1]:` with `(0,0)` skipped). -/
def realDeltas : List Pos :=
  [(0, -1), (0, 1), (-1, 0), (-1, -1), (-1, 1), (1, 0), (1, -1), (1, 1)]

/-- The `while queue:` loop of `real_bot.get_bfs_path`.  Entries carry the
full step path (`path + [(dx, dy)]`); the head of the found path is
returned, `(0, 0)` for an empty path.  The only `target_predicate` the bot
ever passes is Chebyshev adjacency to a target, so the predicate is
specialised to `target`; there is no blocked set. -/
def realBfsAux (m : MapD) (target : Pos) :
    Nat → List (Pos × List Pos) → List Pos → Option Pos
  | 0, _, _ => none
  | _ + 1, [], _ => none
  | fuel + 1, (c, path) :: rest, visited =>
    if cheb c target ≤ 1 then
      match path with
      | [] => some (0, 0)
      | s :: _ => some s
    else
      let s := realDeltas.foldl
        (fun (acc : List (Pos × List Pos) × List Pos) d =>
          let n : Pos := (c.1 + d.1, c.2 + d.2)
          if !m.inBounds n then acc
          else if n ∈ acc.2 then acc
          else if !m.walkable n.1 n.2 then acc
          else (acc.1 ++ [(n, path ++ [d])], n :: acc.2))
        (rest, visited)
      realBfsAux m target fuel s.1 s.2

/-- Embeds `real_bot.get_bfs_path` (lines 50–71). -/
def real_get_bfs_path (m : MapD) (start target : Pos) : Option Pos :=
  realBfsAux m target (m.width * m.height + 2) [(start, [])] [start]

/-- Embeds `real_bot.move_towards` (lines 73–83): `True` when already adjacent,
otherwise possibly one issued `controller.move`; returns the flag and the
issued destination. -/
def realMoveTowards (m : MapD) (bp target : Pos) : Bool × Option Pos :=
  if cheb bp target ≤ 1 then (true, none)
  else
    match real_get_bfs_path m bp target with
    | some s =>
      if s.1 ≠ 0 || s.2 ≠ 0 then (false, some (bp.1 + s.1, bp.2 + s.2))
      else (false, none)
    | none => (false, none)

/-- A held item as a dict (`bot_info['holding']`). -/
structure HoldingD where
  food_name : Option String
deriving DecidableEq, Repr

/-- The closure `is_holding(name)` from `real_bot.play_assembler_bot`:
`h.get('food_name', '').upper() == name.upper()` on a dict, `False` for
`None`. -/
def rIsHolding (h : Option HoldingD) (name : String) : Bool :=
  match h with
  | none => false
  | some d => (d.food_name.getD "").toUpper = name.toUpper

/-- A tile item for `real_bot`'s tile reads. -/
inductive RItem
  | food (food_name : String) (chopped : Bool) (cooked_stage : Int)
  | pan (food : Option (String × Int))
  | plate
deriving DecidableEq, Repr

/-- The attribute read `tile.item.chopped`: only `Food` has the attribute. -/
def RItem.choppedAttr : RItem → Except PyErr Bool
  | RItem.food _ c _ => Except.ok c
  | _ => Except.error (PyErr.attributeError "chopped")

/-- A live tile for `real_bot`. -/
structure RTile where
  item : Option RItem
deriving DecidableEq, Repr

/-- The world as read by `real_bot` through the controller. -/
structure RWorld where
  m : MapD
  turn : Int
  money : Int
  orders : List OrderD
  teamBots : List Nat
  botPos : Nat → Pos
  botHolding : Nat → Option HoldingD
  tiles : Int → Int → Option RTile
  actOk : String → Pos → Bool

/-- The persistent `real_bot` scheduler fields used by
`play_turn` / `play_assembler_bot`. -/
structure RState where
  locations : List (String × Option Pos)
  bot_states : List (Nat × Int)
  order_id : Option Nat
  orders : List OrderD
  provider_processed_count : Nat
  goal_stove : Option (Int × Int × Nat)
  cookers : List (Bool × Bool × Int × Int)
  boxes : List Pos
  invading : Bool
deriving Repr

/-- Python list subscription with `IndexError`. -/
def pyListGet {α : Type} (l : List α) (i : Nat) : Except PyErr α :=
  match l.get? i with
  | some x => Except.ok x
  | none => Except.error PyErr.indexError

/-- Subscripting a helpers dict value, `value[0]`: `None` is not
subscriptable; an `(x, y)` tuple yields the int `x`. -/
def pyLocSub0 : Option Pos → Except PyErr Int
  | none => Except.error (PyErr.typeError "NoneType is not subscriptable")
  | some p => Except.ok p.1

/-- Unpacking `a, b = v` where `v` is an int (`TypeError`). -/
def pyUnpack2Int (_ : Int) : Except PyErr Pos :=
  Except.error (PyErr.typeError "cannot unpack non-iterable int")

/-- The skip-loop of `real_bot.play_assembler_bot` (lines 162–169): advance
`provider_processed_count` past `"NOODLES"`/`"SAUCE"` entries, stopping at
the first other entry (the target) or the end of the list. -/
def skipHandled (req : List String) : Nat → Nat → Nat × Option String
  | 0, count => (count, none)
  | fuel + 1, count =>
    match req.get? count with
    | none => (count, none)
    | some candidate =>
      if candidate = "NOODLES" || candidate = "SAUCE" then
        skipHandled req fuel (count + 1)
      else (count, some candidate)

/-- Dict store `self.bot_states[bot_id] = v`. -/
def dictSetNat (l : List (Nat × Int)) (k : Nat) (v : Int) :
    List (Nat × Int) :=
  (l.filter (fun e => e.1 ≠ k)) ++ [(k, v)]

/-- Result of a `real_bot` per-bot call: new state, invoked action
primitives, issued move destinations. -/
structure ROut where
  st : RState
  actions : List ActionCall
  moves : List Pos
deriving Repr

/-- Embeds `real_bot.play_assembler_bot` (lines 128–268) in full.  Every
evaluation faults at line 143, `sx, sy = self.locations["SHOP"][0]`: the
helpers dict stores `"SHOP"` as a single `(x, y)` tuple or `None`, so the
subscript/unpack raises `TypeError` (and line 144's `"COUNTER"` access
would raise `KeyError`).  The later states — including the state-0 branch
whose money check reads the unbound name `target_enum` (line 186), and the
state-1 chop/pickup calls that are not adjacency-guarded (lines 203–217) —
are translated nonetheless, faithfully to the source. -/
def realPlayAssemblerBot (w : RWorld) (s : RState) (bot_id : Nat) :
    Except PyErr ROut := do
  let bot_states :=
    if (s.bot_states.find? (fun e => e.1 = bot_id)).isSome then s.bot_states
    else s.bot_states ++ [(bot_id, 0)]
  let state := (((bot_states.find? (fun e => e.1 = bot_id)).map (·.2)).getD 0)
  let bp := w.botPos bot_id
  let holding := w.botHolding bot_id
  -- line 143: sx, sy = self.locations["SHOP"][0]
  let shopv ← dictGet s.locations "SHOP"
  let shop0 ← pyLocSub0 shopv
  let (sx, sy) ← pyUnpack2Int shop0
  -- line 144: cx, cy = self.locations["COUNTER"][0]
  let counterv ← dictGet s.locations "COUNTER"
  let counter0 ← pyLocSub0 counterv
  let (cx, cy) ← pyUnpack2Int counter0
  let s := { s with bot_states := bot_states }
  match s.order_id with
  | none => Except.ok ⟨s, [], []⟩
  | some oid => do
    let order ← pyListGet s.orders oid
    let required := order.required
    let sk := skipHandled required (required.length + 1)
      s.provider_processed_count
    let s := { s with provider_processed_count := sk.1 }
    match sk.2 with
    | none => Except.ok ⟨s, [], []⟩
    | some target_name =>
      if state = 0 then
        if rIsHolding holding target_name then
          let next : Int :=
            if target_name = "MEAT" || target_name = "ONION" ||
                target_name = "ONIONS" then 1 else 2
          Except.ok ⟨{ s with bot_states := dictSetNat s.bot_states bot_id next },
            [], []⟩
        else
          let r := realMoveTowards w.m bp (sx, sy)
          if r.1 then do
            -- line 186: ... >= target_enum.buy_cost — `target_enum` is
            -- bound nowhere in real_bot.py, so evaluation raises NameError
            let _ ← (Except.error (PyErr.nameError "target_enum") :
              Except PyErr Int)
            Except.ok ⟨s, [], []⟩
          else
            Except.ok ⟨s, [], r.2.toList⟩
      else if state = 1 then
        let item_name := target_name.toUpper
        if rIsHolding holding item_name then
          let r := realMoveTowards w.m bp (cx, cy)
          if r.1 then
            Except.ok ⟨s, [⟨"place", bot_id, (cx, cy)⟩], []⟩
          else
            Except.ok ⟨s, [], r.2.toList⟩
        else
          match w.tiles cx cy with
          | none => Except.ok ⟨s, [], []⟩
          | some tile =>
            match tile.item with
            | none => Except.ok ⟨s, [], []⟩
            | some item => do
              let ch ← item.choppedAttr
              if ch then
                if w.actOk "pickup" (cx, cy) then
                  let next : Int :=
                    if item_name = "ONIONS" || item_name = "ONION" then 3
                    else 2
                  Except.ok ⟨{ s with
                    bot_states := dictSetNat s.bot_states bot_id next },
                    [⟨"pickup", bot_id, (cx, cy)⟩], []⟩
                else
                  Except.ok ⟨s, [⟨"pickup", bot_id, (cx, cy)⟩], []⟩
              else
                Except.ok ⟨s, [⟨"chop", bot_id, (cx, cy)⟩], []⟩
      else if state = 2 then
        let loopRan := s.goal_stove.isNone
        let gs :=
          if s.goal_stove.isNone then
            (s.cookers.enum.find? (fun e => e.2.1 && !e.2.2.1)).map
              (fun e => (e.2.2.2.1, e.2.2.2.2, e.1))
          else s.goal_stove
        let s := { s with goal_stove := gs }
        match gs with
        | none => Except.ok ⟨s, [], []⟩
        | some (gx, gy, gidx) => do
          -- line 235: self.move_towards(controller, bot_id, x, y) — the
          -- loop variables leak; when the loop did not run (goal_stove was
          -- already set) the names x, y are unbound
          let xy ←
            if loopRan then Except.ok (gx, gy)
            else (Except.error (PyErr.nameError "x") : Except PyErr Pos)
          let r1 := realMoveTowards w.m bp xy
          if r1.1 then
            let r2 := realMoveTowards w.m bp (gx, gy)
            if r2.1 then
              if w.actOk "place" (gx, gy) then
                if w.actOk "start_cook" (gx, gy) then
                  Except.ok ⟨{ s with
                    provider_processed_count := s.provider_processed_count + 1,
                    bot_states := dictSetNat s.bot_states bot_id 0,
                    goal_stove := none,
                    cookers := s.cookers.set gidx (true, true, gx, gy) },
                    [⟨"place", bot_id, (gx, gy)⟩,
                     ⟨"start_cook", bot_id, (gx, gy)⟩], []⟩
                else
                  Except.ok ⟨s,
                    [⟨"place", bot_id, (gx, gy)⟩,
                     ⟨"start_cook", bot_id, (gx, gy)⟩], []⟩
              else
                Except.ok ⟨{ s with
                  goal_stove := none,
                  cookers := s.cookers.set gidx (false, false, gx, gy) },
                  [⟨"place", bot_id, (gx, gy)⟩], []⟩
            else
              Except.ok ⟨s, [], r2.2.toList⟩
          else
            Except.ok ⟨s, [], r1.2.toList⟩
      else if state = 3 then do
        let box0 ← pyListGet s.boxes 0
        let r := realMoveTowards w.m bp box0
        if r.1 then
          if w.actOk "place" box0 then
            Except.ok ⟨{ s with
              provider_processed_count := s.provider_processed_count + 1,
              bot_states := dictSetNat s.bot_states bot_id 0 },
              [⟨"place", bot_id, box0⟩], []⟩
          else
            Except.ok ⟨s, [⟨"place", bot_id, box0⟩], []⟩
        else
          Except.ok ⟨s, [], r.2.toList⟩
      else Except.ok ⟨s, [], []⟩

/-- The skip-loop of `real_bot.play_turn` (line 106): advance `order_id`
past orders whose `expires_turn <= controller.get_turn()`. -/
def skipExpiredOrders (orders : List OrderD) (turn : Int) :
    Nat → Nat → Nat
  | 0, oid => oid
  | fuel + 1, oid =>
    match orders.get? oid with
    | none => oid
    | some o =>
      if o.expires_turn ≤ turn then skipExpiredOrders orders turn fuel (oid + 1)
      else oid

/-- The tail of `real_bot.play_turn` after the order bookkeeping: early
return when past the last order, pick the two bots (`my_bots[1]` raising
`IndexError` when the team has one bot), then — not invading — run
`play_assembler_bot` followed by `play_provider_bot` (whose body is a bare
`return`). -/
def realPlayTurnRest (w : RWorld) (s : RState) (oid : Nat) :
    Except PyErr ROut :=
  if s.orders.length ≤ oid then Except.ok ⟨s, [], []⟩
  else
    match w.teamBots with
    | [] => Except.ok ⟨s, [], []⟩
    | provider :: restBots =>
      match pyListGet (provider :: restBots) 1 with
      | Except.error e => Except.error e
      | Except.ok assembler =>
        if s.invading then Except.ok ⟨s, [], []⟩
        else
          -- play_assembler_bot(assembler_bot_id, controller), then
          -- play_provider_bot(provider_bot_id, controller) — a bare return
          realPlayAssemblerBot w s assembler

/-- Embeds `real_bot.play_turn` (lines 99–126): fetch the orders, initialise
`order_id` to 0 when unset, skip orders with `expires_turn <= turn`, then
run the per-bot logic (`realPlayTurnRest`). -/
def realPlayTurn (w : RWorld) (s : RState) : Except PyErr ROut :=
  let s1 : RState := { s with orders := w.orders }
  let oid0 : Nat :=
    match s1.order_id with
    | none => 0
    | some i => i
  let oid := skipExpiredOrders s1.orders w.turn (s1.orders.length + 1) oid0
  realPlayTurnRest w { s1 with order_id := some oid } oid

/-! ## Specification-side notions used to state the claims -/

/-- A cell the BFS of `balanced_bot` may enter: in bounds, statically
walkable, and not in the blocked set. -/
def elig (m : MapD) (blocked : List Pos) (p : Pos) : Prop :=
  m.inBounds p = true ∧ m.walkable p.1 p.2 = true ∧ p ∉ blocked

instance (m : MapD) (blocked : List Pos) (p : Pos) :
    Decidable (elig m blocked p) := by
  unfold elig; infer_instance

/-- One 8-connected step into an eligible cell. -/
def eligStep (m : MapD) (blocked : List Pos) (p q : Pos) : Prop :=
  (∃ d ∈ deltas, q = (p.1 + d.1, p.2 + d.2)) ∧ elig m blocked q

instance (m : MapD) (blocked : List Pos) (p q : Pos) :
    Decidable (eligStep m blocked p q) := by
  unfold eligStep; infer_instance

/-- A walkable path (through eligible cells) from `start` to `p`; `start`
itself need not be eligible. -/
def ReachableFrom (m : MapD) (blocked : List Pos) (start p : Pos) : Prop :=
  Relation.ReflTransGen (eligStep m blocked) start p

/-- All cells the BFS can ever visit: the start plus the in-bounds cells
(row-major); used only to bound the iteration count. -/
def allowedList (m : MapD) (start : Pos) : List Pos :=
  start :: scanOrder m

/-- The map `m` with the blocked cells made unwalkable. -/
def restrictMap (m : MapD) (blocked : List Pos) : MapD :=
  ⟨m.width, m.height,
    fun x y => m.walkable x y && !(decide ((x, y) ∈ blocked))⟩

/-- Modelled from the spec: the Order Selector scoring formula
`score(order) = (reward − missing_cost − affordability_penalty) /
max(1, expires_turn − now)` (§4.2), which claims C6 attributes to
`order_score`. -/
def specOrderScoreClaimed (reward missing penalty : ℚ)
    (expires now : Int) : ℚ :=
  (reward - missing - penalty) / ((max 1 (expires - now) : Int) : ℚ)

/-- Well-formedness of a BFS queue entry's remembered first step: `None`
only on the start entry; otherwise a legal delta landing on an eligible
cell. -/
def QFirstOk (m : MapD) (blocked : List Pos) (start : Pos)
    (e : QEntry) : Prop :=
  match e.2 with
  | none => e.1 = start
  | some d => d ∈ deltas ∧ elig m blocked (start.1 + d.1, start.2 + d.2)

/-- The loop invariant of `balanced_bot.get_bfs_path`: the visited list is
duplicate-free, bounded by the grid, reachable, covers the queue, carries
well-formed first steps, and every visited cell not currently queued is
fully expanded and non-adjacent to the target. -/
def BfsInv (m : MapD) (blocked : List Pos) (start target : Pos)
    (q : List QEntry) (vis : List Pos) : Prop :=
  vis.Nodup ∧ start ∈ vis ∧ vis ⊆ allowedList m start ∧
  (∀ p ∈ vis, ReachableFrom m blocked start p) ∧
  (∀ e ∈ q, e.1 ∈ vis) ∧
  (∀ e ∈ q, QFirstOk m blocked start e) ∧
  (∀ p ∈ vis, (∃ e ∈ q, e.1 = p) ∨ ∀ p', eligStep m blocked p p' → p' ∈ vis) ∧
  (∀ p ∈ vis, (∃ e ∈ q, e.1 = p) ∨ ¬ (cheb p target ≤ 1))

/-- The buy cost `order_score` attributes to one required-ingredient name
(0 when unrecognized). -/
def costOf (fts : List FoodSpec) (n : String) : Int :=
  match get_food_type_by_name fts n with
  | some ft => ft.buy_cost
  | none => 0

/-- The time estimate `order_score` attributes to one required-ingredient
name. -/
def timeOf (fts : List FoodSpec) (n : String) : Int :=
  match get_food_type_by_name fts n with
  | some ft =>
    1 + (if ft.can_chop then 2 else 0) + (if ft.can_cook then 4 else 0)
  | none => 0

/-- The required-ingredient names resolved to `FoodType`s (unrecognized
names dropped), in order. -/
def recognized (fts : List FoodSpec) (req : List String) : List FoodSpec :=
  req.filterMap (get_food_type_by_name fts)

/-! ## Concrete scenario data -/

/-- A fully walkable 10×10 map (the spec's BFS scenario). -/
def openMap10 : MapD := ⟨10, 10, fun _ _ => true⟩

/-- A 5×1 fully walkable corridor. -/
def corridorMap : MapD := ⟨5, 1, fun _ _ => true⟩

/-- A 4×2 map for the `copy.py` collision scenario: the cooker `(3,0)` and
the shop `(0,1)` are unwalkable stations, the rest is floor. -/
def collisionMap : MapD :=
  ⟨4, 2, fun x y => !((x = 3 && y = 0) || (x = 0 && y = 1))⟩

/-- Scenario order for C6: requires MEAT and ONIONS, reward 30,
expires at turn 100. -/
def order6 : OrderD := ⟨7, ["MEAT", "ONIONS"], 30, 100, true, none⟩

/-- Stickiness scenario: the locked order `K` (id 1, low reward). -/
def orderK : OrderD := ⟨1, ["ONIONS"], 5, 100, true, none⟩

/-- Stickiness scenario: the tempting order `J` (id 2, high reward). -/
def orderJ : OrderD := ⟨2, [], 50, 100, true, none⟩

/-- Scheduler state locked on `orderK`. -/
def schedK : Sched :=
  { current_order := some orderK
    current_order_id := some 1
    active_chop_loc := none
    active_assemble_loc := none
    cooked_ingredients := []
    cooked_queue := []
    simple_ingredients := [⟨"ONIONS", 5, true, false⟩]
    chopped_ingredients := [⟨"ONIONS", 5, true, false⟩]
    chop_queue := [⟨"ONIONS", 5, true, false⟩]
    cooked_count := 0
    cooked_total := 0
    current_chop_ingredient := none
    provider_state := 30
    assembler_state := 0 }

/-- An all-walkable tile function for the idle-tile scenario. -/
def idleTiles : Int → Int → Option TileD := fun _ _ => some ⟨true⟩

/-- The map of the idle-tile scenario. -/
def idleMap : MapD := ⟨4, 4, fun _ _ => true⟩

/-- Static map for the `real_bot` scenario: a shop at `(4,0)`, floor
elsewhere. -/
def realMapT : MapT :=
  ⟨5, 2, fun x y => if x = 4 && y = 0 then "SHOP" else "FLOOR"⟩

/-- World for the `real_bot` scenario: one active unexpired order, two
bots, the assembler (bot 2) standing at `(3,0)` — Chebyshev-adjacent to
the shop `(4,0)` — holding nothing. -/
def realWorld0 : RWorld :=
  { m := ⟨5, 2, fun _ _ => true⟩
    turn := 0
    money := 100
    orders := [⟨0, ["MEAT"], 10, 50, true, none⟩]
    teamBots := [1, 2]
    botPos := fun _ => (3, 0)
    botHolding := fun _ => none
    tiles := fun _ _ => none
    actOk := fun _ _ => true }

/-- The `real_bot` scheduler state for the scenario (fields as a hypothetical
post-`__init__` state would hold them). -/
def realState0 : RState :=
  { locations := helpers_find_important_locations realMapT
    bot_states := []
    order_id := none
    orders := []
    provider_processed_count := 0
    goal_stove := none
    cookers := []
    boxes := []
    invading := false }

/-- The shared-state record at the start of a `copy.py` turn in the
collision scenario: provider in state 2 (pan bought, heading for the
cooker), assembler in state 0 (heading for the shop to buy a plate). -/
def copyFrag0 : CopyFragOut :=
  { moveDest := none
    actions := []
    provider_state := 2
    assembler_state := 0
    pan_on_cooker := false
    must_move_provider := false
    must_move_assembler := false }

/-- The provider fragment of the collision turn: bot 1 at `(0,0)` walks
toward the cooker `(3,0)`; the turn's cached bot-position set is
`{(0,0), (2,1)}` (current positions only — `copy.py` threads no committed
next positions). -/
def copyTurnSt1 : CopyFragOut :=
  copyProviderState2 collisionMap [(0, 0), (2, 1)] 1 (0, 0) (some (3, 0))
    true copyFrag0

/-- The assembler fragment of the same turn, run after the provider on the
same cached bot-position set: bot 2 at `(2,1)` walks toward the shop
`(0,1)`. -/
def copyTurnSt2 : CopyFragOut :=
  copyAssemblerState0 collisionMap [(0, 0), (2, 1)] 2 (2, 1) true false 0
    (some (0, 1)) 100 specPlateCost (1, 1) copyTurnSt1

/-! # Lemmas -/

theorem foldl_preserve {α β : Type _} {f : β → α → β} {P : β → Prop}
    {l : List α} {b : β} (h0 : P b)
    (hstep : ∀ b' a, a ∈ l → P b' → P (f b' a)) : P (l.foldl f b) := by
  induction l generalizing b with
  | nil => exact h0
  | cons x xs ih =>
    exact ih (hstep b x (List.mem_cons_self x xs) h0)
      (fun b' a ha hb => hstep b' a (List.mem_cons_of_mem x ha) hb)

theorem find?_first {α : Type _} {p : α → Bool} {l : List α} {a : α}
    (h : l.find? p = some a) :
    p a = true ∧ ∃ l₁ l₂, l = l₁ ++ a :: l₂ ∧ ∀ x ∈ l₁, p x = false := by
  induction l with
  | nil => simp [List.find?] at h
  | cons x xs ih =>
    rcases hx : p x with _ | _
    · rw [List.find?_cons_of_neg _ (by simp [hx])] at h
      obtain ⟨hpa, l₁, l₂, hsplit, hfail⟩ := ih h
      exact ⟨hpa, x :: l₁, l₂, by simp [hsplit], by
        intro y hy
        rcases List.mem_cons.mp hy with rfl | hy'
        · exact hx
        · exact hfail y hy'⟩
    · rw [List.find?_cons_of_pos _ hx] at h
      cases h
      exact ⟨hx, [], xs, rfl, by simp⟩

theorem mem_scanOrder {m : MapD} {p : Pos} (h : m.inBounds p = true) :
    p ∈ scanOrder m := by
  simp only [MapD.inBounds, Bool.and_eq_true, decide_eq_true_eq] at h
  obtain ⟨⟨⟨h1, h2⟩, h3⟩, h4⟩ := h
  unfold scanOrder
  have hx : p.1.toNat ∈ List.range m.width := List.mem_range.mpr (by omega)
  have hy : p.2.toNat ∈ List.range m.height := List.mem_range.mpr (by omega)
  have e1 : (p.1.toNat : Int) = p.1 := Int.toNat_of_nonneg h1
  have e2 : (p.2.toNat : Int) = p.2 := Int.toNat_of_nonneg h3
  apply List.mem_flatMap.mpr
  refine ⟨p.1.toNat, hx, ?_⟩
  apply List.mem_map.mpr
  refine ⟨p.2.toNat, hy, ?_⟩
  rw [e1, e2]

theorem length_flatMap_const {α β : Type _} (l : List α) (f : α → List β)
    (k : Nat) (hf : ∀ a ∈ l, (f a).length = k) :
    (l.flatMap f).length = l.length * k := by
  induction l with
  | nil => simp
  | cons x xs ih =>
    simp only [List.flatMap_cons, List.length_append, List.length_cons,
      ih (fun a ha => hf a (List.mem_cons_of_mem _ ha)),
      hf x (List.mem_cons_self _ _)]
    ring

theorem scanOrder_length {m : MapD} :
    (scanOrder m).length = m.width * m.height := by
  unfold scanOrder
  rw [length_flatMap_const _ _ m.height
    (by intro a _; rw [List.length_map, List.length_range]),
    List.length_range]

theorem allowedList_length {m : MapD} {start : Pos} :
    (allowedList m start).length = m.width * m.height + 1 := by
  simp [allowedList, scanOrder_length]

theorem nodup_subset_length_le {l₁ l₂ : List Pos} (hn : l₁.Nodup)
    (hs : l₁ ⊆ l₂) : l₁.length ≤ l₂.length :=
  (hn.subperm hs).length_le

/-! ### Properties of the BFS expansion loop -/

section BfsExpandLemmas

variable {m : MapD} {blocked : List Pos} {c : Pos} {fs : Option Pos}

/-- One expansion iteration either leaves the accumulator unchanged or
enqueues exactly the neighbour `c + d` (eligible and not yet visited). -/
theorem expandStep_cases (acc : List QEntry × List Pos) (d : Pos) :
    expandStep m blocked c fs acc d = acc ∨
    (elig m blocked (c.1 + d.1, c.2 + d.2) ∧
      (c.1 + d.1, c.2 + d.2) ∉ acc.2 ∧
      expandStep m blocked c fs acc d =
        (acc.1 ++ [((c.1 + d.1, c.2 + d.2), some (fs.getD d))],
          (c.1 + d.1, c.2 + d.2) :: acc.2)) := by
  unfold expandStep
  by_cases h1 : (c.1 + d.1, c.2 + d.2) ∈ acc.2
  · left; simp [h1]
  · by_cases h2 : m.inBounds (c.1 + d.1, c.2 + d.2) = true
    · by_cases h3 : m.walkable (c.1 + d.1) (c.2 + d.2) = true
      · by_cases h4 : (c.1 + d.1, c.2 + d.2) ∈ blocked
        · left; simp [h1, h2, h3, h4]
        · right
          exact ⟨⟨h2, h3, h4⟩, h1, by simp [h1, h2, h3, h4]⟩
      · left
        simp only [Bool.not_eq_true] at h3
        simp [h1, h2, h3]
    · left
      simp only [Bool.not_eq_true] at h2
      simp [h1, h2]

/-- If the neighbour `c + d` is eligible, it is visited after its
iteration. -/
theorem expandStep_mem_self (acc : List QEntry × List Pos) (d : Pos)
    (he : elig m blocked (c.1 + d.1, c.2 + d.2)) :
    (c.1 + d.1, c.2 + d.2) ∈ (expandStep m blocked c fs acc d).2 := by
  unfold expandStep
  obtain ⟨hb, hw, hnb⟩ := he
  by_cases h1 : (c.1 + d.1, c.2 + d.2) ∈ acc.2
  · simp [h1]
  · simp [h1, hb, hw, hnb]

/-- The visited set only grows along the expansion fold. -/
theorem foldE_viss (l : List Pos) (acc : List QEntry × List Pos) :
    acc.2 ⊆ (l.foldl (expandStep m blocked c fs) acc).2 := by
  induction l generalizing acc with
  | nil => exact fun _ h => h
  | cons x xs ih =>
    intro p hp
    refine ih (expandStep m blocked c fs acc x) ?_
    rcases expandStep_cases acc x with h | ⟨_, _, h⟩
    · rw [h]; exact hp
    · rw [h]; exact List.mem_cons_of_mem _ hp

/-- Queue entries persist along the expansion fold. -/
theorem foldE_qmono (l : List Pos) (acc : List QEntry × List Pos) :
    ∀ e ∈ acc.1, e ∈ (l.foldl (expandStep m blocked c fs) acc).1 := by
  induction l generalizing acc with
  | nil => exact fun e he => he
  | cons x xs ih =>
    intro e he
    refine ih (expandStep m blocked c fs acc x) e ?_
    rcases expandStep_cases acc x with h | ⟨_, _, h⟩
    · rw [h]; exact he
    · rw [h]; exact List.mem_append_left _ he

/-- Every queue entry after the fold is an old entry or a freshly enqueued
eligible neighbour of `c`. -/
theorem foldE_entry_src (l : List Pos) (acc : List QEntry × List Pos) :
    ∀ e ∈ (l.foldl (expandStep m blocked c fs) acc).1,
      e ∈ acc.1 ∨ ∃ d ∈ l,
        e = ((c.1 + d.1, c.2 + d.2), some (fs.getD d)) ∧
        elig m blocked (c.1 + d.1, c.2 + d.2) := by
  induction l generalizing acc with
  | nil => exact fun e he => Or.inl he
  | cons x xs ih =>
    intro e he
    rcases ih (expandStep m blocked c fs acc x) e he with h | ⟨d, hd, hshape⟩
    · rcases expandStep_cases acc x with hc | ⟨helig, _, hc⟩
      · rw [hc] at h; exact Or.inl h
      · rw [hc] at h
        rcases List.mem_append.mp h with h' | h'
        · exact Or.inl h'
        · right
          refine ⟨x, List.mem_cons_self _ _, ?_, helig⟩
          simpa using h'
    · exact Or.inr ⟨d, List.mem_cons_of_mem _ hd, hshape⟩

/-- Every visited cell after the fold is an old one or an eligible
neighbour of `c`. -/
theorem foldE_vis_src (l : List Pos) (acc : List QEntry × List Pos) :
    ∀ p ∈ (l.foldl (expandStep m blocked c fs) acc).2,
      p ∈ acc.2 ∨ (elig m blocked p ∧ ∃ d ∈ l, p = (c.1 + d.1, c.2 + d.2)) := by
  induction l generalizing acc with
  | nil => exact fun p hp => Or.inl hp
  | cons x xs ih =>
    intro p hp
    rcases ih (expandStep m blocked c fs acc x) p hp with h | ⟨helig, d, hd, hshape⟩
    · rcases expandStep_cases acc x with hc | ⟨helig, _, hc⟩
      · rw [hc] at h; exact Or.inl h
      · rw [hc] at h
        rcases List.mem_cons.mp h with h' | h'
        · exact Or.inr ⟨h' ▸ helig, x, List.mem_cons_self _ _, h'⟩
        · exact Or.inl h'
    · exact Or.inr ⟨helig, d, List.mem_cons_of_mem _ hd, hshape⟩

/-- Queue positions stay inside the visited set along the fold. -/
theorem foldE_qvis (l : List Pos) (acc : List QEntry × List Pos)
    (h0 : ∀ e ∈ acc.1, e.1 ∈ acc.2) :
    ∀ e ∈ (l.foldl (expandStep m blocked c fs) acc).1,
      e.1 ∈ (l.foldl (expandStep m blocked c fs) acc).2 := by
  refine foldl_preserve (P := fun (acc' : List QEntry × List Pos) => ∀ e ∈ acc'.1, e.1 ∈ acc'.2) h0 ?_
  intro acc' d _ hP e he
  rcases @expandStep_cases m blocked c fs acc' d with hc | ⟨_, _, hc⟩
  · rw [hc] at he ⊢; exact hP e he
  · rw [hc] at he ⊢
    rcases List.mem_append.mp he with h' | h'
    · exact List.mem_cons_of_mem _ (hP e h')
    · simp at h'
      simp [h']

/-- The visited set stays duplicate-free along the fold. -/
theorem foldE_nodup (l : List Pos) (acc : List QEntry × List Pos)
    (h0 : acc.2.Nodup) :
    (l.foldl (expandStep m blocked c fs) acc).2.Nodup := by
  refine foldl_preserve (P := fun (acc' : List QEntry × List Pos) => acc'.2.Nodup) h0 ?_
  intro acc' d _ hP
  rcases @expandStep_cases m blocked c fs acc' d with hc | ⟨_, hnm, hc⟩
  · rw [hc]; exact hP
  · rw [hc]; exact List.nodup_cons.mpr ⟨hnm, hP⟩

/-- The fold enqueues exactly one entry per newly visited cell. -/
theorem foldE_count (l : List Pos) (acc : List QEntry × List Pos) :
    (l.foldl (expandStep m blocked c fs) acc).1.length + acc.2.length =
      acc.1.length + (l.foldl (expandStep m blocked c fs) acc).2.length := by
  refine foldl_preserve
    (P := fun (acc' : List QEntry × List Pos) => acc'.1.length + acc.2.length =
      acc.1.length + acc'.2.length) rfl ?_
  intro acc' d _ hP
  rcases @expandStep_cases m blocked c fs acc' d with hc | ⟨_, _, hc⟩
  · rw [hc]; exact hP
  · rw [hc]; simp only [List.length_append, List.length_cons,
      List.length_nil]
    omega

/-- Every eligible neighbour of `c` (in directions from `l`) is visited
after the fold. -/
theorem foldE_covers (l : List Pos) (acc : List QEntry × List Pos) (d : Pos)
    (hd : d ∈ l) (he : elig m blocked (c.1 + d.1, c.2 + d.2)) :
    (c.1 + d.1, c.2 + d.2) ∈ (l.foldl (expandStep m blocked c fs) acc).2 := by
  induction l generalizing acc with
  | nil => cases hd
  | cons x xs ih =>
    rcases List.mem_cons.mp hd with rfl | hd'
    · exact foldE_viss xs _ (expandStep_mem_self acc d he)
    · exact ih _ hd'

end BfsExpandLemmas

/-! ### The BFS invariant and the main BFS lemmas -/

section BfsInvariant

variable {m : MapD} {blocked : List Pos} {start target : Pos}

/-- New visited cells always have a queue entry. -/
theorem foldE_vis_entry {c : Pos} {fs : Option Pos} (l : List Pos)
    (acc : List QEntry × List Pos) :
    ∀ p ∈ (l.foldl (expandStep m blocked c fs) acc).2,
      p ∈ acc.2 ∨ ∃ e ∈ (l.foldl (expandStep m blocked c fs) acc).1,
        e.1 = p := by
  refine foldl_preserve
    (P := fun (acc' : List QEntry × List Pos) =>
      ∀ p ∈ acc'.2, p ∈ acc.2 ∨ ∃ e ∈ acc'.1, e.1 = p)
    (fun p hp => Or.inl hp) ?_
  intro acc' d _ hP p hp
  rcases @expandStep_cases m blocked c fs acc' d with hc | ⟨_, _, hc⟩
  · rw [hc] at hp ⊢; exact hP p hp
  · rw [hc] at hp ⊢
    rcases List.mem_cons.mp hp with rfl | hp'
    · exact Or.inr ⟨((c.1 + d.1, c.2 + d.2), some (fs.getD d)),
        List.mem_append_right _ (by simp), rfl⟩
    · rcases hP p hp' with h | ⟨e, he, hep⟩
      · exact Or.inl h
      · exact Or.inr ⟨e, List.mem_append_left _ he, hep⟩

/-- The invariant holds initially. -/
theorem bfsInv_init :
    BfsInv m blocked start target [(start, none)] [start] := by
  refine ⟨List.nodup_singleton _, by simp, ?_, ?_, ?_, ?_, ?_, ?_⟩
  · intro p hp
    rcases List.mem_singleton.mp hp with rfl
    exact List.mem_cons_self _ _
  · intro p hp
    rcases List.mem_singleton.mp hp with rfl
    exact Relation.ReflTransGen.refl
  · intro e he
    rcases List.mem_singleton.mp he with rfl
    simp
  · intro e he
    rcases List.mem_singleton.mp he with rfl
    exact rfl
  · intro p hp
    rw [List.mem_singleton.mp hp]
    exact Or.inl ⟨(start, none), List.mem_singleton_self _, rfl⟩
  · intro p hp
    rw [List.mem_singleton.mp hp]
    exact Or.inl ⟨(start, none), List.mem_singleton_self _, rfl⟩

/-- One loop iteration preserves the invariant and pops one queue entry per
newly visited cell. -/
theorem bfsInv_step {c : Pos} {fs : Option Pos} {rest : List QEntry}
    {vis : List Pos}
    (hInv : BfsInv m blocked start target ((c, fs) :: rest) vis)
    (hnadj : ¬ (cheb c target ≤ 1)) :
    BfsInv m blocked start target (bfsExpand m blocked c fs rest vis).1
      (bfsExpand m blocked c fs rest vis).2 ∧
    (bfsExpand m blocked c fs rest vis).1.length + vis.length =
      rest.length + (bfsExpand m blocked c fs rest vis).2.length := by
  obtain ⟨hnd, hstart, hsub, hreach, hqvis, hqf, hclos, hnav⟩ := hInv
  have hcvis : c ∈ vis := hqvis (c, fs) (List.mem_cons_self _ _)
  unfold bfsExpand
  constructor
  · refine ⟨?_, ?_, ?_, ?_, ?_, ?_, ?_, ?_⟩
    · exact foldE_nodup deltas (rest, vis) hnd
    · exact foldE_viss deltas (rest, vis) hstart
    · intro p hp
      rcases foldE_vis_src deltas (rest, vis) p hp with h | ⟨helig, _, _, _⟩
      · exact hsub h
      · exact List.mem_cons_of_mem _ (mem_scanOrder helig.1)
    · intro p hp
      rcases foldE_vis_src deltas (rest, vis) p hp with h | ⟨helig, d, hd, rfl⟩
      · exact hreach p h
      · exact Relation.ReflTransGen.tail (hreach c hcvis) ⟨⟨d, hd, rfl⟩, helig⟩
    · exact foldE_qvis deltas (rest, vis)
        (fun e he => hqvis e (List.mem_cons_of_mem _ he))
    · intro e he
      rcases foldE_entry_src deltas (rest, vis) e he with h | ⟨d, hd, rfl, helig⟩
      · exact hqf e (List.mem_cons_of_mem _ h)
      · cases hfs : fs with
        | none =>
          have hc : c = start := by
            have := hqf (c, fs) (List.mem_cons_self _ _)
            rw [hfs] at this
            exact this
          subst hc
          simp only [QFirstOk, hfs, Option.getD]
          exact ⟨hd, helig⟩
        | some f =>
          have := hqf (c, fs) (List.mem_cons_self _ _)
          rw [hfs] at this
          simp only [QFirstOk, hfs, Option.getD]
          exact this
    · intro p hp
      rcases foldE_vis_entry deltas (rest, vis) p hp with hold | ⟨e, he, hep⟩
      · rcases hclos p hold with ⟨e, he, hep⟩ | hcl
        · rcases List.mem_cons.mp he with rfl | he'
          · right
            have hcp : c = p := hep
            subst hcp
            rintro p' ⟨⟨d, hd, rfl⟩, he'⟩
            exact foldE_covers deltas (rest, vis) d hd he'
          · exact Or.inl ⟨e, foldE_qmono deltas (rest, vis) e he', hep⟩
        · exact Or.inr (fun p' hs => foldE_viss deltas (rest, vis) (hcl p' hs))
      · exact Or.inl ⟨e, he, hep⟩
    · intro p hp
      rcases foldE_vis_entry deltas (rest, vis) p hp with hold | ⟨e, he, hep⟩
      · rcases hnav p hold with ⟨e, he, hep⟩ | hna
        · rcases List.mem_cons.mp he with rfl | he'
          · right
            have hcp : c = p := hep
            exact hcp ▸ hnadj
          · exact Or.inl ⟨e, foldE_qmono deltas (rest, vis) e he', hep⟩
        · exact Or.inr hna
      · exact Or.inl ⟨e, he, hep⟩
  · exact foldE_count deltas (rest, vis)

/-- Unfolding equation for one BFS iteration. -/
theorem bfsAux_cons {fuel : Nat} {c : Pos} {fs : Option Pos}
    {rest : List QEntry} {vis : List Pos} :
    bfsAux m blocked target (fuel + 1) ((c, fs) :: rest) vis =
      if cheb c target ≤ 1 then some (fs.getD (0, 0))
      else bfsAux m blocked target fuel
        (bfsExpand m blocked c fs rest vis).1
        (bfsExpand m blocked c fs rest vis).2 := rfl

/-- Soundness of the BFS loop: a successful result implies a reachable
target-adjacent cell, and the returned step is `(0,0)` on an adjacent
start, otherwise a well-formed eligible first step. -/
theorem bfsAux_some {fuel : Nat} {q : List QEntry} {vis : List Pos} {s : Pos}
    (hInv : BfsInv m blocked start target q vis)
    (hres : bfsAux m blocked target fuel q vis = some s) :
    (∃ p, ReachableFrom m blocked start p ∧ cheb p target ≤ 1) ∧
    ((s = (0, 0) ∧ cheb start target ≤ 1) ∨
      (s ∈ deltas ∧ elig m blocked (start.1 + s.1, start.2 + s.2))) := by
  induction fuel generalizing q vis with
  | zero => cases hres
  | succ fuel ih =>
    match q with
    | [] => cases hres
    | (c, fs) :: rest =>
      rw [bfsAux_cons] at hres
      by_cases hadj : cheb c target ≤ 1
      · rw [if_pos hadj] at hres
        obtain ⟨hnd, hstart, hsub, hreach, hqvis, hqf, hclos, hnav⟩ := hInv
        have hcvis : c ∈ vis := hqvis (c, fs) (List.mem_cons_self _ _)
        refine ⟨⟨c, hreach c hcvis, hadj⟩, ?_⟩
        have hs : s = fs.getD (0, 0) := (Option.some.injEq _ _).mp hres.symm
        cases hfs : fs with
        | none =>
          have hc : c = start := by
            have := hqf (c, fs) (List.mem_cons_self _ _)
            rw [hfs] at this
            exact this
          left
          rw [hs, hfs]
          exact ⟨rfl, hc ▸ hadj⟩
        | some f =>
          have := hqf (c, fs) (List.mem_cons_self _ _)
          rw [hfs] at this
          right
          rw [hs, hfs]
          exact this
      · rw [if_neg hadj] at hres
        exact ih (bfsInv_step hInv hadj).1 hres

/-- Completeness of the BFS loop: with sufficient fuel, a `None` result
means no reachable cell is adjacent to the target. -/
theorem bfsAux_none {fuel : Nat} {q : List QEntry} {vis : List Pos}
    (hInv : BfsInv m blocked start target q vis)
    (hfuel : q.length + ((allowedList m start).length - vis.length) < fuel)
    (hres : bfsAux m blocked target fuel q vis = none) :
    ∀ p, ReachableFrom m blocked start p → ¬ (cheb p target ≤ 1) := by
  induction fuel generalizing q vis with
  | zero => exact absurd hfuel (Nat.not_lt_zero _)
  | succ fuel ih =>
    match q with
    | [] =>
      obtain ⟨hnd, hstart, hsub, hreach, hqvis, hqf, hclos, hnav⟩ := hInv
      have hcl : ∀ p ∈ vis, ∀ p', eligStep m blocked p p' → p' ∈ vis := by
        intro p hp
        refine (hclos p hp).resolve_left ?_
        rintro ⟨e, he, -⟩
        cases he
      have hvis : ∀ p, ReachableFrom m blocked start p → p ∈ vis := by
        intro p h
        induction h with
        | refl => exact hstart
        | tail hab hbc ihv => exact hcl _ ihv _ hbc
      intro p hp
      refine (hnav p (hvis p hp)).resolve_left ?_
      rintro ⟨e, he, -⟩
      cases he
    | (c, fs) :: rest =>
      rw [bfsAux_cons] at hres
      by_cases hadj : cheb c target ≤ 1
      · rw [if_pos hadj] at hres
        cases hres
      · rw [if_neg hadj] at hres
        obtain ⟨hInv', hcount⟩ := bfsInv_step hInv hadj
        refine ih hInv' ?_ hres
        have hnd' := hInv'.1
        have hsub' := hInv'.2.2.1
        have hvle : (bfsExpand m blocked c fs rest vis).2.length ≤
            (allowedList m start).length :=
          nodup_subset_length_le hnd' hsub'
        have hvle2 : vis.length ≤
            (bfsExpand m blocked c fs rest vis).2.length :=
          nodup_subset_length_le hInv.1 (by unfold bfsExpand; exact foldE_viss deltas (rest, vis))
        simp only [List.length_cons] at hfuel
        omega

end BfsInvariant

/-! ### Top-level `get_bfs_path` lemmas -/

section BfsTop

variable {m : MapD} {blocked : List Pos} {start target : Pos}

theorem get_bfs_path_adjacent (h : cheb start target ≤ 1) :
    get_bfs_path m start target blocked = some (0, 0) := by
  show bfsAux m blocked target (m.width * m.height + 1 + 1)
    [(start, none)] [start] = some (0, 0)
  rw [bfsAux_cons, if_pos h]
  rfl

theorem get_bfs_path_none_iff :
    get_bfs_path m start target blocked = none ↔
      ¬ ∃ p, ReachableFrom m blocked start p ∧ cheb p target ≤ 1 := by
  constructor
  · intro h
    rintro ⟨p, hr, ha⟩
    have hb : BfsInv m blocked start target [(start, none)] [start] :=
      bfsInv_init
    refine bfsAux_none hb ?_ h p hr ha
    rw [allowedList_length]
    simp only [List.length_cons, List.length_nil]
    omega
  · intro h
    cases hres : get_bfs_path m start target blocked with
    | none => rfl
    | some s => exact absurd (bfsAux_some bfsInv_init hres).1 h

theorem get_bfs_path_step {s : Pos}
    (hres : get_bfs_path m start target blocked = some s)
    (hna : ¬ cheb start target ≤ 1) :
    s ∈ deltas ∧ elig m blocked (start.1 + s.1, start.2 + s.2) := by
  rcases (bfsAux_some bfsInv_init hres).2 with ⟨-, hadj⟩ | hshape
  · exact absurd hadj hna
  · exact hshape

/-- The destination of a returned first step is never a blocked cell. -/
theorem get_bfs_path_step_unblocked {s : Pos}
    (hres : get_bfs_path m start target blocked = some s)
    (hna : ¬ cheb start target ≤ 1) :
    (start.1 + s.1, start.2 + s.2) ∉ blocked :=
  (get_bfs_path_step hres hna).2.2.2

end BfsTop

/-! ### Blocked cells act exactly like unwalkable cells in
`balanced_bot.get_bfs_path` (claim C3) -/

section BfsRestrict

variable {m : MapD} {blocked : List Pos} {target : Pos}

theorem expandStep_restrict (c : Pos) (fs : Option Pos)
    (acc : List QEntry × List Pos) (d : Pos) :
    expandStep (restrictMap m blocked) [] c fs acc d =
      expandStep m blocked c fs acc d := by
  show (if (c.1 + d.1, c.2 + d.2) ∈ acc.2 then acc
    else if !(restrictMap m blocked).inBounds (c.1 + d.1, c.2 + d.2) then acc
    else if !(restrictMap m blocked).walkable (c.1 + d.1) (c.2 + d.2) then acc
    else if (c.1 + d.1, c.2 + d.2) ∈ ([] : List Pos) then acc
    else (acc.1 ++ [((c.1 + d.1, c.2 + d.2), some (fs.getD d))],
      (c.1 + d.1, c.2 + d.2) :: acc.2)) = _
  by_cases h1 : (c.1 + d.1, c.2 + d.2) ∈ acc.2
  · simp [expandStep, h1]
  · by_cases h2 : m.inBounds (c.1 + d.1, c.2 + d.2) = true
    · by_cases h3 : m.walkable (c.1 + d.1) (c.2 + d.2) = true
      · by_cases h4 : (c.1 + d.1, c.2 + d.2) ∈ blocked
        · have hw : (restrictMap m blocked).walkable (c.1 + d.1) (c.2 + d.2)
              = false := by
            simp [restrictMap, h3, h4]
          have hb : (restrictMap m blocked).inBounds (c.1 + d.1, c.2 + d.2)
              = m.inBounds (c.1 + d.1, c.2 + d.2) := rfl
          simp [expandStep, h1, h2, h3, h4, hw, hb]
        · have hw : (restrictMap m blocked).walkable (c.1 + d.1) (c.2 + d.2)
              = true := by
            simp [restrictMap, h3, h4]
          have hb : (restrictMap m blocked).inBounds (c.1 + d.1, c.2 + d.2)
              = m.inBounds (c.1 + d.1, c.2 + d.2) := rfl
          simp [expandStep, h1, h2, h3, h4, hw, hb]
      · have hb : (restrictMap m blocked).inBounds (c.1 + d.1, c.2 + d.2)
            = m.inBounds (c.1 + d.1, c.2 + d.2) := rfl
        simp only [Bool.not_eq_true] at h3
        have hw : (restrictMap m blocked).walkable (c.1 + d.1) (c.2 + d.2)
            = false := by
          simp [restrictMap, h3]
        simp [expandStep, h1, h2, h3, hw, hb]
    · have hb : (restrictMap m blocked).inBounds (c.1 + d.1, c.2 + d.2)
          = m.inBounds (c.1 + d.1, c.2 + d.2) := rfl
      simp only [Bool.not_eq_true] at h2
      simp [expandStep, h1, h2, hb]

theorem bfsAux_restrict :
    ∀ (fuel : Nat) (q : List QEntry) (vis : List Pos),
      bfsAux (restrictMap m blocked) [] target fuel q vis =
        bfsAux m blocked target fuel q vis := by
  intro fuel
  induction fuel with
  | zero => intro q vis; rfl
  | succ fuel ih =>
    intro q vis
    match q with
    | [] => rfl
    | (c, fs) :: rest =>
      rw [bfsAux_cons, bfsAux_cons]
      by_cases hadj : cheb c target ≤ 1
      · rw [if_pos hadj, if_pos hadj]
      · rw [if_neg hadj, if_neg hadj]
        have hst : expandStep (restrictMap m blocked) [] c fs =
            expandStep m blocked c fs :=
          funext fun acc => funext fun d => expandStep_restrict c fs acc d
        unfold bfsExpand
        rw [hst, ih]

/-- In `balanced_bot.get_bfs_path` the blocked set is equivalent to making
the blocked cells unwalkable: it constrains every step, not only the first
one. -/
theorem get_bfs_path_restrict (start : Pos) :
    get_bfs_path (restrictMap m blocked) start target [] =
      get_bfs_path m start target blocked := by
  unfold get_bfs_path
  exact bfsAux_restrict _ _ _

end BfsRestrict

/-! ### `copy.get_bfs_path` consults bot positions only while
`first_step is None` -/

section CopyBfs

variable {m : MapD} {target : Pos}

theorem copyExpandStep_some {bots bots' : List Pos} {c : Pos}
    {fs : Option Pos} (hfs : fs ≠ none) :
    copyExpandStep m bots c fs = copyExpandStep m bots' c fs := by
  funext acc d
  unfold copyExpandStep
  have h : (decide (fs = none) && decide ((c.1 + d.1, c.2 + d.2) ∈ bots))
      = false := by
    simp [hfs]
  have h' : (decide (fs = none) && decide ((c.1 + d.1, c.2 + d.2) ∈ bots'))
      = false := by
    simp [hfs]
  simp only [h, h']

theorem copyExpandStep_entries {bots : List Pos} {c : Pos} {fs : Option Pos}
    (acc : List QEntry × List Pos) (d : Pos) :
    copyExpandStep m bots c fs acc d = acc ∨
    ∃ n nf, copyExpandStep m bots c fs acc d =
      (acc.1 ++ [(n, some nf)], n :: acc.2) := by
  unfold copyExpandStep
  by_cases h1 : (c.1 + d.1, c.2 + d.2) ∈ acc.2
  · left; simp [h1]
  · by_cases h2 : m.inBounds (c.1 + d.1, c.2 + d.2) = true
    · by_cases h3 : m.walkable (c.1 + d.1) (c.2 + d.2) = true
      · by_cases h4 : (decide (fs = none) &&
            decide ((c.1 + d.1, c.2 + d.2) ∈ bots)) = true
        · left; simp [h1, h2, h3, h4]
        · right
          refine ⟨(c.1 + d.1, c.2 + d.2), fs.getD d, ?_⟩
          simp only [Bool.not_eq_true] at h4
          simp [h1, h2, h3, h4]
      · left
        simp only [Bool.not_eq_true] at h3
        simp [h1, h2, h3]
    · left
      simp only [Bool.not_eq_true] at h2
      simp [h1, h2]

theorem copyFold_entries_some {bots : List Pos} {c : Pos} {fs : Option Pos}
    (l : List Pos) (acc : List QEntry × List Pos)
    (h0 : ∀ e ∈ acc.1, e.2 ≠ none) :
    ∀ e ∈ (l.foldl (copyExpandStep m bots c fs) acc).1, e.2 ≠ none := by
  refine foldl_preserve
    (P := fun (acc' : List QEntry × List Pos) => ∀ e ∈ acc'.1, e.2 ≠ none)
    h0 ?_
  intro acc' d _ hP e he
  rcases copyExpandStep_entries (m := m) acc' d with hc | ⟨n, nf, hc⟩
  · rw [hc] at he; exact hP e he
  · rw [hc] at he
    rcases List.mem_append.mp he with h' | h'
    · exact hP e h'
    · simp only [List.mem_singleton] at h'
      rw [h']
      simp

/-- Once every queue entry carries a first step, `copy.get_bfs_path`'s loop
no longer depends on the bot-position set at all. -/
theorem copyBfsAux_bots_irrel {bots bots' : List Pos} :
    ∀ (fuel : Nat) (q : List QEntry) (vis : List Pos),
      (∀ e ∈ q, e.2 ≠ none) →
      copyBfsAux m bots target fuel q vis =
        copyBfsAux m bots' target fuel q vis := by
  intro fuel
  induction fuel with
  | zero => intro q vis _; rfl
  | succ fuel ih =>
    intro q vis hq
    match q with
    | [] => rfl
    | (c, fs) :: rest =>
      show (if cheb c target ≤ 1 then some (fs.getD (0, 0))
        else copyBfsAux m bots target fuel
          (copyBfsExpand m bots c fs rest vis).1
          (copyBfsExpand m bots c fs rest vis).2) = _
      by_cases hadj : cheb c target ≤ 1
      · rw [if_pos hadj]
        show _ = (if cheb c target ≤ 1 then some (fs.getD (0, 0)) else _)
        rw [if_pos hadj]
      · have hfs : fs ≠ none := hq (c, fs) (List.mem_cons_self _ _)
        rw [if_neg hadj]
        show _ = (if cheb c target ≤ 1 then some (fs.getD (0, 0))
          else copyBfsAux m bots' target fuel
            (copyBfsExpand m bots' c fs rest vis).1
            (copyBfsExpand m bots' c fs rest vis).2)
        rw [if_neg hadj]
        have hst := @copyExpandStep_some m bots bots' c fs hfs
        unfold copyBfsExpand
        rw [hst]
        exact ih _ _ (copyFold_entries_some deltas (rest, vis)
          (fun e he => hq e (List.mem_cons_of_mem _ he)))

end CopyBfs

/-! ### Dict and executor lemmas (claim C1) -/

section ExecLemmas

theorem find?_append_none {α : Type _} {p : α → Bool} {l₁ l₂ : List α}
    (h : l₁.find? p = none) : (l₁ ++ l₂).find? p = l₂.find? p := by
  induction l₁ with
  | nil => rfl
  | cons x xs ih =>
    rcases hx : p x with _ | _
    · rw [List.find?_cons_of_neg _ (by simp [hx])] at h
      rw [List.cons_append, List.find?_cons_of_neg _ (by simp [hx])]
      exact ih h
    · rw [List.find?_cons_of_pos _ hx] at h
      cases h

theorem lookupPos_storePos_self (l : List (Nat × Pos)) (b : Nat) (v : Pos) :
    lookupPos (storePos l b v) b = some v := by
  unfold lookupPos storePos
  rw [find?_append_none (List.find?_eq_none.mpr ?_)]
  · simp [List.find?]
  · intro e he
    have := (List.mem_filter.mp he).2
    simp only [decide_eq_true_eq] at this ⊢
    exact this

theorem lookupPos_storePos_ne (l : List (Nat × Pos)) {b k : Nat} (v : Pos)
    (h : k ≠ b) : lookupPos (storePos l b v) k = lookupPos l k := by
  unfold lookupPos storePos
  induction l with
  | nil =>
    simp [List.find?, (by simpa using Ne.symm h : ¬ (b = k))]
  | cons e rest ih =>
    by_cases he : e.1 = b
    · rw [List.filter_cons_of_neg (by simp [he])]
      rw [List.find?_cons_of_neg _ (by simp [he, h.symm])]
      exact ih
    · rw [List.filter_cons_of_pos (by simp [he])]
      by_cases hek : e.1 = k
      · rw [List.cons_append, List.find?_cons_of_pos _ (by simp [hek]),
          List.find?_cons_of_pos _ (by simp [hek])]
      · rw [List.cons_append, List.find?_cons_of_neg _ (by simp [hek]),
          List.find?_cons_of_neg _ (by simp [hek])]
        exact ih

theorem mem_blockedFor_of_lookup {curr fut : List (Nat × Pos)} {b k : Nat}
    {v : Pos} (hk : lookupPos fut k = some v) (hne : k ≠ b) :
    v ∈ blockedFor curr fut b := by
  unfold lookupPos at hk
  rcases Option.map_eq_some'.mp hk with ⟨e, hfind, hev⟩
  have hmem : e ∈ fut := List.mem_of_find?_eq_some hfind
  have hkey : e.1 = k := by
    have := List.find?_some hfind
    simpa using this
  unfold blockedFor
  apply List.mem_append_left
  apply List.mem_map.mpr
  refine ⟨e, List.mem_filter.mpr ⟨hmem, ?_⟩, hev⟩
  simp [hkey, hne]

/-- Full case analysis of a successful `balanced_bot.move_towards` call:
either the bot is adjacent (`True`, no move), or a move into an unblocked
destination is issued and committed, or no move is possible; in every case
the bot's future position is committed. -/
theorem move_towards_spec {m : MapD} {curr fut : List (Nat × Pos)} {b : Nat}
    {t : Pos} {r : Bool × Option Pos × List (Nat × Pos)}
    (h : move_towards m curr fut b t = Except.ok r) :
    ∃ bp, lookupPos curr b = some bp ∧
      ((r.1 = true ∧ r.2.1 = none ∧ cheb bp t ≤ 1 ∧
          r.2.2 = storePos fut b bp) ∨
       (r.1 = false ∧
         ((∃ d, r.2.1 = some d ∧ d ∉ blockedFor curr fut b ∧
             r.2.2 = storePos fut b d) ∨
          (r.2.1 = none ∧ r.2.2 = storePos fut b bp)))) := by
  unfold move_towards at h
  split at h
  · cases h
  · rename_i bp hl
    refine ⟨bp, hl, ?_⟩
    split at h
    · rename_i hadj
      cases h
      exact Or.inl ⟨rfl, rfl, hadj, rfl⟩
    · rename_i hadj
      split at h
      · rename_i s hbfs
        split at h
        · rename_i hz
          cases h
          refine Or.inr ⟨rfl, Or.inl ⟨(bp.1 + s.1, bp.2 + s.2), rfl, ?_, rfl⟩⟩
          exact get_bfs_path_step_unblocked hbfs hadj
        · cases h
          exact Or.inr ⟨rfl, Or.inr ⟨rfl, rfl⟩⟩
      · cases h
        exact Or.inr ⟨rfl, Or.inr ⟨rfl, rfl⟩⟩

/-- Every issued move belongs to a requested bot. -/
theorem execTurn_moves_bots {m : MapD} {curr : List (Nat × Pos)} :
    ∀ (reqs : List MoveReq) (fut tr futF : List (Nat × Pos)),
      execTurn m curr reqs fut = Except.ok (tr, futF) →
      ∀ e ∈ tr, e.1 ∈ reqs.map Prod.fst := by
  intro reqs
  induction reqs with
  | nil =>
    intro fut tr futF h e he
    cases h
    cases he
  | cons req rest ih =>
    intro fut tr futF h e he
    match req with
    | (b, none) =>
      rw [execTurn] at h
      cases hl : lookupPos curr b with
      | none => rw [hl] at h; cases h
      | some bp =>
        rw [hl] at h
        exact List.mem_cons_of_mem _ (ih _ _ _ h e he)
    | (b, some t) =>
      rw [execTurn] at h
      split at h
      · cases h
      · rename_i r hmv
        split at h
        · cases h
        · rename_i trace futF' hrec
          cases h
          rcases List.mem_append.mp he with hh | ht
          · cases hd : r.2.1 with
            | none => rw [hd] at hh; cases hh
            | some d =>
              rw [hd] at hh
              rcases List.mem_singleton.mp hh with rfl
              exact List.mem_cons_self _ _
          · exact List.mem_cons_of_mem _ (ih _ _ _ hrec e ht)

/-- Issued moves avoid the committed positions of any key that is neither
the mover nor a later-requested bot. -/
theorem execTurn_moves_avoid {m : MapD} {curr : List (Nat × Pos)} :
    ∀ (reqs : List MoveReq) (fut tr futF : List (Nat × Pos)),
      execTurn m curr reqs fut = Except.ok (tr, futF) →
      ∀ e ∈ tr, ∀ k v, lookupPos fut k = some v → k ≠ e.1 →
        k ∉ reqs.map Prod.fst → e.2 ≠ v := by
  intro reqs
  induction reqs with
  | nil =>
    intro fut tr futF h e he
    cases h
    cases he
  | cons req rest ih =>
    intro fut tr futF h e he k v hk hke hknot
    have hknotr : k ∉ rest.map Prod.fst := by
      intro hm
      exact hknot (List.mem_cons_of_mem _ hm)
    have hkb : k ≠ req.1 := by
      intro hm
      exact hknot (hm ▸ List.mem_cons_self _ _)
    match req with
    | (b, none) =>
      rw [execTurn] at h
      cases hl : lookupPos curr b with
      | none => rw [hl] at h; cases h
      | some bp =>
        rw [hl] at h
        refine ih _ _ _ h e he k v ?_ hke hknotr
        rw [lookupPos_storePos_ne _ _ hkb]
        exact hk
    | (b, some t) =>
      rw [execTurn] at h
      split at h
      · cases h
      · rename_i r hmv
        split at h
        · cases h
        · rename_i trace futF' hrec
          cases h
          obtain ⟨bp, hbp, hspec⟩ := move_towards_spec hmv
          have hfut' : ∃ w, r.2.2 = storePos fut b w := by
            rcases hspec with ⟨-, -, -, hw⟩ | ⟨-, ⟨d, -, -, hw⟩ | ⟨-, hw⟩⟩
            · exact ⟨bp, hw⟩
            · exact ⟨d, hw⟩
            · exact ⟨bp, hw⟩
          rcases List.mem_append.mp he with hh | ht
          · cases hd : r.2.1 with
            | none => rw [hd] at hh; cases hh
            | some d =>
              rw [hd] at hh
              rcases List.mem_singleton.mp hh with rfl
              rcases hspec with ⟨-, hnone, -, -⟩ | ⟨-, hcase⟩
              · rw [hd] at hnone; cases hnone
              · rcases hcase with ⟨d', hd', hdb, -⟩ | ⟨hnone, -⟩
                · rw [hd] at hd'
                  cases hd'
                  intro hdv
                  refine hdb ?_
                  rw [show d = v from hdv]
                  exact mem_blockedFor_of_lookup hk hke
                · rw [hd] at hnone; cases hnone
          · obtain ⟨w, hw⟩ := hfut'
            refine ih _ _ _ hrec e ht k v ?_ hke hknotr
            rw [hw, lookupPos_storePos_ne _ _ hkb]
            exact hk

/-- Claim C1's coordination mechanism in `balanced_bot`/`pp_bot`: when
agents are processed sequentially with `move_towards` committing each
agent's next position before the next agent runs, no two distinct agents
are ever issued moves into the same destination cell. -/
theorem execTurn_no_collision {m : MapD} {curr : List (Nat × Pos)} :
    ∀ (reqs : List MoveReq) (fut tr futF : List (Nat × Pos)),
      (reqs.map Prod.fst).Nodup →
      execTurn m curr reqs fut = Except.ok (tr, futF) →
      tr.Pairwise (fun a b => a.2 ≠ b.2) := by
  intro reqs
  induction reqs with
  | nil =>
    intro fut tr futF _ h
    cases h
    exact List.Pairwise.nil
  | cons req rest ih =>
    intro fut tr futF hnd h
    have hndr : (rest.map Prod.fst).Nodup := (List.nodup_cons.mp hnd).2
    have hbnot : req.1 ∉ rest.map Prod.fst := (List.nodup_cons.mp hnd).1
    match req with
    | (b, none) =>
      rw [execTurn] at h
      cases hl : lookupPos curr b with
      | none => rw [hl] at h; cases h
      | some bp =>
        rw [hl] at h
        exact ih _ _ _ hndr h
    | (b, some t) =>
      rw [execTurn] at h
      split at h
      · cases h
      · rename_i r hmv
        split at h
        · cases h
        · rename_i trace futF' hrec
          cases h
          have htail : trace.Pairwise (fun a b => a.2 ≠ b.2) :=
            ih _ _ _ hndr hrec
          cases hd : r.2.1 with
          | none => simpa using htail
          | some d =>
            show List.Pairwise (fun a b => a.2 ≠ b.2) ((b, d) :: trace)
            refine List.Pairwise.cons ?_ htail
            intro e het
            obtain ⟨bp, hbp, hspec⟩ := move_towards_spec hmv
            rcases hspec with ⟨-, hnone, -, -⟩ | ⟨-, hcase⟩
            · rw [hd] at hnone; cases hnone
            · rcases hcase with ⟨d', hd', -, hw⟩ | ⟨hnone, -⟩
              · rw [hd] at hd'
                cases hd'
                have hkb : b ≠ e.1 := by
                  intro hbe
                  exact hbnot (hbe ▸ execTurn_moves_bots _ _ _ _ hrec e het)
                have hlk : lookupPos r.2.2 b = some d := by
                  rw [hw]
                  exact lookupPos_storePos_self _ _ _
                have := execTurn_moves_avoid _ _ _ _ hrec e het b d hlk
                  hkb hbnot
                exact fun hdv => this hdv.symm
              · rw [hd] at hnone; cases hnone

end ExecLemmas

/-! ### Order scoring and selection lemmas (claims C6, C8, C2) -/

section OrderLemmas

variable {fts : List FoodSpec} {now : Int}

theorem foldl_add_map {α : Type _} (g : α → Int) :
    ∀ (l : List α) (a : Int),
      l.foldl (fun x n => x + g n) a = a + (l.map g).sum := by
  intro l
  induction l with
  | nil => intro a; simp
  | cons n rest ih =>
    intro a
    simp only [List.foldl_cons, List.map_cons, List.sum_cons, ih]
    ring

theorem estimate_order_cost_eq (fts : List FoodSpec) (o : OrderD) :
    estimate_order_cost fts o = (o.required.map (costOf fts)).sum := by
  unfold estimate_order_cost
  have hfun : (fun (total : Int) n =>
      match get_food_type_by_name fts n with
      | some ft => total + ft.buy_cost
      | none => total) = fun (total : Int) n => total + costOf fts n := by
    funext total n
    unfold costOf
    cases get_food_type_by_name fts n <;> simp
  rw [hfun, foldl_add_map]
  ring

theorem estimate_order_time_eq (fts : List FoodSpec) (o : OrderD) :
    estimate_order_time fts o = (o.required.map (timeOf fts)).sum := by
  unfold estimate_order_time
  have hfun : (fun (total : Int) n =>
      match get_food_type_by_name fts n with
      | some ft => total + 1 + (if ft.can_chop then 2 else 0) +
          (if ft.can_cook then 4 else 0)
      | none => total) = fun (total : Int) n => total + timeOf fts n := by
    funext total n
    unfold timeOf
    cases get_food_type_by_name fts n with
    | none => simp
    | some ft => ring
  rw [hfun, foldl_add_map]
  ring

theorem tupLt_iff (a b : ℚ × Int) :
    tupLt a b = true ↔ (a.1 < b.1 ∨ (a.1 = b.1 ∧ a.2 < b.2)) := by
  unfold tupLt
  by_cases h1 : a.1 < b.1
  · simp [h1]
  · by_cases h2 : a.1 = b.1
    · simp [h1, h2]
    · simp [h1, h2]

theorem tupLt_irrefl (a : ℚ × Int) : tupLt a a = false := by
  rw [Bool.eq_false_iff]
  intro h
  rcases (tupLt_iff a a).mp h with h' | ⟨-, h'⟩
  · exact lt_irrefl _ h'
  · exact lt_irrefl _ h'

theorem tupLt_trans {a b c : ℚ × Int} (h1 : tupLt a b = true)
    (h2 : tupLt b c = true) : tupLt a c = true := by
  rcases (tupLt_iff a b).mp h1 with h | ⟨he, h⟩ <;>
    rcases (tupLt_iff b c).mp h2 with h' | ⟨he', h'⟩ <;>
    refine (tupLt_iff a c).mpr ?_
  · exact Or.inl (lt_trans h h')
  · exact Or.inl (he' ▸ h)
  · exact Or.inl (he ▸ h')
  · exact Or.inr ⟨he.trans he', lt_trans h h'⟩

theorem tupLt_trans_not {a b c : ℚ × Int} (h1 : tupLt a b = true)
    (h2 : tupLt c b = false) : tupLt a c = true := by
  rcases (tupLt_iff a b).mp h1 with h | ⟨he, h⟩ <;>
    refine (tupLt_iff a c).mpr ?_ <;>
    rw [Bool.eq_false_iff] at h2
  · rcases lt_trichotomy c.1 b.1 with hc | hc | hc
    · exact absurd ((tupLt_iff c b).mpr (Or.inl hc)) h2
    · exact Or.inl (by rw [hc]; exact h)
    · exact Or.inl (lt_trans h hc)
  · rcases lt_trichotomy c.1 b.1 with hc | hc | hc
    · exact absurd ((tupLt_iff c b).mpr (Or.inl hc)) h2
    · rcases lt_trichotomy c.2 b.2 with hd | hd | hd
      · exact absurd ((tupLt_iff c b).mpr (Or.inr ⟨hc, hd⟩)) h2
      · exact Or.inr ⟨by rw [he, hc], by rw [← hd] at h; exact h⟩
      · exact Or.inr ⟨by rw [he, hc], lt_trans h hd⟩
    · exact Or.inl (by rw [he]; exact hc)

/-- The `max(..., key=...)` fold of `select_best_order` returns an element
of the candidate list. -/
theorem select_fold_mem (fts : List FoodSpec) (now : Int) :
    ∀ (l : List OrderD) (x : OrderD),
      (l.foldl (fun best o' =>
        if tupLt (order_score fts best now) (order_score fts o' now) then o'
        else best) x) ∈ x :: l := by
  intro l
  induction l with
  | nil => intro x; simp
  | cons o rest ih =>
    intro x
    simp only [List.foldl_cons]
    by_cases hc : tupLt (order_score fts x now) (order_score fts o now) = true
    · rw [if_pos hc]
      rcases List.mem_cons.mp (ih o) with h | h
      · rw [h]; simp
      · simp [List.mem_cons_of_mem, h]
    · rw [if_neg hc]
      rcases List.mem_cons.mp (ih x) with h | h
      · rw [h]; simp
      · simp [List.mem_cons_of_mem, h]

/-- The fold's result has a key no candidate's key strictly exceeds. -/
theorem select_fold_max (fts : List FoodSpec) (now : Int) :
    ∀ (l : List OrderD) (x : OrderD), ∀ y ∈ x :: l,
      tupLt (order_score fts
        (l.foldl (fun best o' =>
          if tupLt (order_score fts best now) (order_score fts o' now) then o'
          else best) x) now) (order_score fts y now) = false := by
  intro l
  induction l with
  | nil =>
    intro x y hy
    rcases List.mem_singleton.mp hy with rfl
    simp only [List.foldl_nil]
    exact tupLt_irrefl _
  | cons o rest ih =>
    intro x y hy
    simp only [List.foldl_cons]
    by_cases hc : tupLt (order_score fts x now) (order_score fts o now) = true
    · rw [if_pos hc]
      rcases List.mem_cons.mp hy with rfl | hy'
      · rw [Bool.eq_false_iff]
        intro hlt
        have := tupLt_trans hlt hc
        have hro := ih o o (List.mem_cons_self _ _)
        rw [this] at hro
        cases hro
      · rcases List.mem_cons.mp hy' with rfl | hy''
        · exact ih y y (List.mem_cons_self _ _)
        · exact ih o y (List.mem_cons_of_mem _ hy'')
    · rw [if_neg hc]
      rcases List.mem_cons.mp hy with rfl | hy'
      · exact ih y y (List.mem_cons_self _ _)
      · rcases List.mem_cons.mp hy' with rfl | hy''
        · rw [Bool.eq_false_iff]
          intro hlt
          have := tupLt_trans_not hlt (Bool.eq_false_iff.mpr hc)
          have hrx := ih x x (List.mem_cons_self _ _)
          rw [this] at hrx
          cases hrx
        · exact ih x y (List.mem_cons_of_mem _ hy'')

theorem select_best_order_none_iff (orders : List OrderD) :
    select_best_order fts orders now = none ↔
      ∀ o ∈ orders, o.is_active = false := by
  unfold select_best_order
  cases hact : orders.filter (fun o => o.is_active) with
  | nil =>
    have hall : ∀ o ∈ orders, o.is_active = false := by
      intro o ho
      have := List.filter_eq_nil_iff.mp hact o ho
      simpa using this
    exact iff_of_true rfl hall
  | cons x rest =>
    refine iff_of_false (by simp) ?_
    intro h
    have hx : x ∈ orders.filter (fun o => o.is_active) := by
      rw [hact]; exact List.mem_cons_self _ _
    have hm := List.mem_filter.mp hx
    have h2 := hm.2
    simp [h x hm.1] at h2

theorem select_best_order_spec {orders : List OrderD} {o : OrderD}
    (h : select_best_order fts orders now = some o) :
    o ∈ orders ∧ o.is_active = true ∧
      ∀ o' ∈ orders, o'.is_active = true →
        tupLt (order_score fts o now) (order_score fts o' now) = false := by
  unfold select_best_order at h
  cases hact : orders.filter (fun o => o.is_active) with
  | nil => rw [hact] at h; cases h
  | cons x rest =>
    rw [hact] at h
    have ho : o = rest.foldl (fun best o' =>
        if tupLt (order_score fts best now) (order_score fts o' now) then o'
        else best) x := by
      cases h; rfl
    have hmem : o ∈ x :: rest := ho ▸ select_fold_mem fts now rest x
    have hmem' : o ∈ orders.filter (fun o => o.is_active) := by
      rw [hact]; exact hmem
    have hfo := List.mem_filter.mp hmem'
    refine ⟨hfo.1, by simpa using hfo.2, ?_⟩
    intro o' ho' hact'
    have ho'f : o' ∈ x :: rest := by
      rw [← hact]
      exact List.mem_filter.mpr ⟨ho', by simpa using hact'⟩
    rw [ho]
    exact select_fold_max fts now rest x o' ho'f

end OrderLemmas

/-! ### Order-analysis lemmas (claim C10) -/

section AnalyzeLemmas

theorem categorize_fold (fts : List FoodSpec) :
    ∀ (req : List String) (acc : List FoodSpec × List FoodSpec × List FoodSpec),
      req.foldl
        (fun acc n =>
          match get_food_type_by_name fts n with
          | none => acc
          | some ft =>
            if ft.can_cook then (acc.1 ++ [ft], acc.2.1, acc.2.2)
            else if ft.can_chop then (acc.1, acc.2.1 ++ [ft], acc.2.2)
            else (acc.1, acc.2.1, acc.2.2 ++ [ft])) acc =
      (acc.1 ++ (recognized fts req).filter (fun ft => ft.can_cook),
       acc.2.1 ++ (recognized fts req).filter
         (fun ft => !ft.can_cook && ft.can_chop),
       acc.2.2 ++ (recognized fts req).filter
         (fun ft => !ft.can_cook && !ft.can_chop)) := by
  intro req
  induction req with
  | nil => intro acc; simp [recognized]
  | cons n rest ih =>
    intro acc
    simp only [List.foldl_cons]
    cases hft : get_food_type_by_name fts n with
    | none =>
      rw [ih]
      simp [recognized, List.filterMap_cons, hft]
    | some ft =>
      dsimp only
      have hrec : recognized fts (n :: rest) = ft :: recognized fts rest := by
        simp [recognized, List.filterMap_cons, hft]
      by_cases hcook : ft.can_cook = true
      · rw [if_pos hcook, ih, hrec]
        simp [List.filter_cons, hcook]
      · rw [if_neg hcook]
        simp only [Bool.not_eq_true] at hcook
        by_cases hchop : ft.can_chop = true
        · rw [if_pos hchop, ih, hrec]
          simp [List.filter_cons, hcook, hchop]
        · simp only [Bool.not_eq_true] at hchop
          rw [if_neg (by simp [hchop]), ih, hrec]
          simp [List.filter_cons, hcook, hchop]

theorem categorize_eq (fts : List FoodSpec) (req : List String) :
    categorize fts req =
      ((recognized fts req).filter (fun ft => ft.can_cook),
       (recognized fts req).filter (fun ft => !ft.can_cook && ft.can_chop),
       (recognized fts req).filter (fun ft => !ft.can_cook && !ft.can_chop)) := by
  unfold categorize
  rw [categorize_fold]
  simp

theorem recognized_partition_length (l : List FoodSpec) :
    (l.filter (fun ft => ft.can_cook)).length +
    (l.filter (fun ft => !ft.can_cook && ft.can_chop)).length +
    (l.filter (fun ft => !ft.can_cook && !ft.can_chop)).length = l.length := by
  induction l with
  | nil => rfl
  | cons x rest ih =>
    cases hc : x.can_cook <;> cases hch : x.can_chop <;>
      simp [List.filter_cons, hc, hch] <;> omega

end AnalyzeLemmas

/-! ### `helpers` / `real_bot` lemmas (claims C5, C9) -/

section RealBotLemmas

theorem dictSet_keys {α : Type _} (d : List (String × α)) (k : String)
    (v : α) : (dictSet d k v).map Prod.fst = d.map Prod.fst := by
  induction d with
  | nil => rfl
  | cons e rest ih =>
    by_cases he : e.1 = k
    · simpa [dictSet, he] using ih
    · simpa [dictSet, he] using ih

theorem helpersScan_keys (mt : MapT) :
    (helpersScan mt).1.map Prod.fst = helpersInit.map Prod.fst := by
  unfold helpersScan
  refine foldl_preserve
    (P := fun (acc : List (String × Option Pos) × List Pos × List Pos) =>
      acc.1.map Prod.fst = helpersInit.map Prod.fst) rfl ?_
  intro acc xy _ hP
  dsimp only
  by_cases h1 : dictHasKey acc.1 (mt.tile_name xy.1 xy.2) = true
  · rw [if_pos h1]
    rw [show ((dictSet acc.1 (mt.tile_name xy.1 xy.2)
      (some ((xy.1 : Int), (xy.2 : Int)))), acc.2).1 =
      dictSet acc.1 (mt.tile_name xy.1 xy.2)
        (some ((xy.1 : Int), (xy.2 : Int))) from rfl]
    rw [dictSet_keys]
    exact hP
  · rw [if_neg h1]
    by_cases h2 : mt.tile_name xy.1 xy.2 = "COUNTER"
    · rw [if_pos h2]; exact hP
    · rw [if_neg h2]
      by_cases h3 : mt.tile_name xy.1 xy.2 = "FLOOR"
      · rw [if_pos h3]; exact hP
      · rw [if_neg h3]; exact hP

theorem heurChop_keys (locs : List (String × Option Pos))
    (counters : List Pos) :
    (heurChop locs counters).map Prod.fst = locs.map Prod.fst := by
  unfold heurChop
  repeat' split
  all_goals try rw [dictSet_keys]
  all_goals rfl

theorem heurAssembly_keys (locs : List (String × Option Pos))
    (counters : List Pos) :
    (heurAssembly locs counters).map Prod.fst = locs.map Prod.fst := by
  unfold heurAssembly
  repeat' split
  all_goals try rw [dictSet_keys]
  all_goals rfl

theorem heurWaiting_keys (locs : List (String × Option Pos))
    (floors : List Pos) :
    (heurWaiting locs floors).map Prod.fst = locs.map Prod.fst := by
  unfold heurWaiting
  repeat' split
  all_goals try rw [dictSet_keys]
  all_goals rfl

theorem helpers_keys (mt : MapT) :
    (helpers_find_important_locations mt).map Prod.fst =
      helpersInit.map Prod.fst := by
  unfold helpers_find_important_locations
  rw [heurWaiting_keys, heurAssembly_keys, heurChop_keys, helpersScan_keys]

theorem except_bind_ok {α β : Type} (a : α) (f : α → Except PyErr β) :
    (Except.ok a >>= f) = f a := rfl

theorem except_bind_error {α β : Type} (e : PyErr)
    (f : α → Except PyErr β) :
    ((Except.error e : Except PyErr α) >>= f) = Except.error e := rfl

theorem helpers_find_box_none (mt : MapT) :
    (helpers_find_important_locations mt).find?
      (fun e => e.1 = "BOX") = none := by
  apply List.find?_eq_none.mpr
  intro e he
  have hk : e.1 ∈ (helpers_find_important_locations mt).map Prod.fst :=
    List.mem_map.mpr ⟨e, he, rfl⟩
  rw [helpers_keys] at hk
  simp only [helpersInit, List.map_cons, List.map_nil, List.mem_cons,
    List.not_mem_nil, or_false] at hk
  simp only [decide_eq_true_eq]
  rcases hk with h | h | h | h | h | h | h | h | h <;> simp [h]

/-- Shows `real_bot.BotPlayer.__init__` always raises `KeyError('BOX')` at line
26: the helpers dict has no `"BOX"` key. -/
theorem realBotInit_keyError (mt : MapT) :
    realBotInit mt = Except.error (PyErr.keyError "BOX") := by
  have h : dictGet (helpers_find_important_locations mt) "BOX" =
      (Except.error (PyErr.keyError "BOX") : Except PyErr (Option Pos)) := by
    unfold dictGet
    rw [helpers_find_box_none]
  unfold realBotInit
  dsimp only
  rw [h, except_bind_error]

theorem dictGet_error {α : Type} {d : List (String × α)} {k : String}
    {e : PyErr} (h : dictGet d k = Except.error e) :
    e = PyErr.keyError k := by
  unfold dictGet at h
  cases hf : d.find? (fun x => x.1 = k) with
  | some x => rw [hf] at h; cases h
  | none => rw [hf] at h; cases h; rfl

/-- Every call of `real_bot.play_assembler_bot` faults while evaluating
line 143 (`sx, sy = self.locations["SHOP"][0]`) — with a `KeyError` or
`TypeError`, never with the `NameError` of the `target_enum` reference. -/
theorem realPlayAssemblerBot_faults (w : RWorld) (s : RState) (b : Nat) :
    ∃ e, realPlayAssemblerBot w s b = Except.error e ∧
      ∀ n, e ≠ PyErr.nameError n := by
  unfold realPlayAssemblerBot
  cases hg : dictGet s.locations "SHOP" with
  | error e =>
    refine ⟨e, ?_, ?_⟩
    · rfl
    · intro n
      rw [dictGet_error hg]
      simp
  | ok v =>
    cases v with
    | none =>
      exact ⟨PyErr.typeError "NoneType is not subscriptable", rfl, by simp⟩
    | some p =>
      exact ⟨PyErr.typeError "cannot unpack non-iterable int", rfl, by simp⟩

theorem pyListGet_error {α : Type} {l : List α} {i : Nat} {e : PyErr}
    (h : pyListGet l i = Except.error e) : e = PyErr.indexError := by
  unfold pyListGet at h
  cases hf : l.get? i with
  | some x => rw [hf] at h; cases h
  | none => rw [hf] at h; cases h; rfl

theorem realPlayTurnRest_no_nameError (w : RWorld) (s : RState) (oid : Nat)
    (n : String) :
    realPlayTurnRest w s oid ≠ Except.error (PyErr.nameError n) := by
  intro h
  unfold realPlayTurnRest at h
  split at h
  · cases h
  · split at h
    · cases h
    · rename_i provider restBots
      split at h
      · rename_i e hpl
        cases h
        have := pyListGet_error hpl
        cases this
      · rename_i assembler hpl
        split at h
        · cases h
        · obtain ⟨e, he, hne⟩ := realPlayAssemblerBot_faults w s assembler
          rw [he] at h
          injection h with h'
          exact hne n h'

/-- From the public `real_bot.play_turn` interface, no evaluation ever
raises a `NameError`: the `target_enum` branch is unreachable. -/
theorem realPlayTurn_no_nameError (w : RWorld) (s : RState) (n : String) :
    realPlayTurn w s ≠ Except.error (PyErr.nameError n) := by
  intro h
  exact realPlayTurnRest_no_nameError w _ _ n h

end RealBotLemmas

/-! ### Concrete score evaluations

Rational arithmetic (`Rat.mul`, `Rat.div`) does not reduce inside the
kernel, so the concrete scenario scores are established once here by
`norm_num` and reused. -/

section ConcreteScores

theorem score_orderK :
    order_score specFoodTypes orderK 90 = (-(1 / 2 : ℚ), -10) := by
  have hc : estimate_order_cost specFoodTypes orderK = 5 := rfl
  have ht : estimate_order_time specFoodTypes orderK = 3 := rfl
  unfold order_score
  dsimp only
  rw [hc, ht]
  refine Prod.ext_iff.mpr ⟨?_, by decide⟩
  show ((5 : Int) : ℚ) - (1 / 2 : ℚ) * ((5 : Int) : ℚ) -
      (1 : ℚ) * ((3 : Int) : ℚ) = -(1 / 2 : ℚ)
  norm_num

theorem score_orderJ :
    order_score specFoodTypes orderJ 90 = (50, -10) := by
  have hc : estimate_order_cost specFoodTypes orderJ = 0 := rfl
  have ht : estimate_order_time specFoodTypes orderJ = 0 := rfl
  unfold order_score
  dsimp only
  rw [hc, ht]
  refine Prod.ext_iff.mpr ⟨?_, by decide⟩
  show ((50 : Int) : ℚ) - (1 / 2 : ℚ) * ((0 : Int) : ℚ) -
      (1 : ℚ) * ((0 : Int) : ℚ) = (50 : ℚ)
  norm_num

theorem score_K_lt_J :
    (order_score specFoodTypes orderK 90).1 <
      (order_score specFoodTypes orderJ 90).1 := by
  rw [score_orderK, score_orderJ]
  norm_num

theorem tupLt_KJ :
    tupLt (order_score specFoodTypes orderK 90)
      (order_score specFoodTypes orderJ 90) = true := by
  rw [score_orderK, score_orderJ]
  unfold tupLt
  rw [if_pos (by norm_num : (-(1 / 2 : ℚ)) < 50)]

theorem select_KJ :
    select_best_order specFoodTypes [orderK, orderJ] 90 = some orderJ := by
  unfold select_best_order
  show some (if tupLt (order_score specFoodTypes orderK 90)
      (order_score specFoodTypes orderJ 90) then orderJ else orderK) =
    some orderJ
  rw [tupLt_KJ]
  rfl

theorem update_KJ :
    (updateOrderSelection specFoodTypes schedK
      [orderK, orderJ] 90).current_order_id = some 2 := by
  unfold updateOrderSelection
  rw [select_KJ]
  dsimp only
  rw [show schedK.current_order = some orderK from rfl,
      show schedK.current_order_id = some (1 : Int) from rfl]
  rw [if_neg (Option.some_ne_none orderK)]
  rw [show is_order_expired
      (get_order_by_id [orderK, orderJ] (some (1 : Int))) 90 =
      false from rfl]
  rw [if_neg Bool.false_ne_true]
  rw [if_pos (show some orderJ.order_id ≠ some (1 : Int) by decide)]
  rw [show (match get_order_by_id [orderK, orderJ] (some (1 : Int)) with
      | some o => o.is_active
      | none => false) = true from rfl]
  simp only [Bool.not_true]
  rw [if_neg Bool.false_ne_true]
  rw [decide_eq_true score_K_lt_J]
  rfl

end ConcreteScores

/-! # Claim theorems -/

/-- Claim C1 (amended): the sequential-commit mechanism holds in
`balanced_bot`/`pp_bot` — their `move_towards` threads committed future
positions, so a turn that processes each requested bot at most once never
issues two moves with the same destination cell.  (The claim as stated is
refuted for `copy.py` by `claim_C1_counterexample`: its `move_towards`
blocks only on the turn-start current positions.) -/
theorem claim_C1_amended :
    ∀ (m : MapD) (curr : List (Nat × Pos)) (reqs : List MoveReq)
      (fut tr futF : List (Nat × Pos)),
      (reqs.map Prod.fst).Nodup →
      execTurn m curr reqs fut = Except.ok (tr, futF) →
      tr.Pairwise (fun a b => a.2 ≠ b.2) :=
  fun _ _ reqs fut tr futF h1 h2 =>
    execTurn_no_collision reqs fut tr futF h1 h2

/-- Claim C1's amended theorem at a concrete turn: two bots at `(0,0)` and
`(9,9)` routed toward `(5,0)` and `(5,9)` on the open 10×10 grid receive
distinct destinations. -/
theorem claim_C1_amended_witness :
    ([(1, ((1 : Int), (0 : Int))), (2, ((8 : Int), (8 : Int)))] :
        List (Nat × Pos)).Pairwise (fun a b => a.2 ≠ b.2) :=
  claim_C1_amended openMap10 [(1, (0, 0)), (2, (9, 9))]
    [(1, some (5, 0)), (2, some (5, 9))] []
    [(1, (1, 0)), (2, (8, 8))] [(1, (1, 0)), (2, (8, 8))]
    (by decide) (by rfl)

/-- Claim C1's counterexample in `copy.py`: in one turn on the 4×2
collision map, the provider (bot 1 at `(0,0)`, heading for the cooker
`(3,0)`) and the assembler (bot 2 at `(2,1)`, heading for the shop
`(0,1)`), processed sequentially on the same turn-start bot-position set,
are both issued a move into the same cell `(1,0)`. -/
theorem claim_C1_counterexample :
    copyTurnSt1.moveDest = some ((1 : Int), (0 : Int)) ∧
    copyTurnSt2.moveDest = some ((1 : Int), (0 : Int)) :=
  ⟨rfl, rfl⟩

/-- Claim C3 (amended): in `balanced_bot.get_bfs_path` the blocked set is
consulted at *every* expansion — blocked cells behave exactly like
unwalkable cells of the map — while in `copy.get_bfs_path` the
bot-position set is consulted only while the entry's first step is still
`None`, so only the first step out of the start is restricted. -/
theorem claim_C3_amended :
    (∀ (m : MapD) (start target : Pos) (blocked : List Pos),
      get_bfs_path (restrictMap m blocked) start target [] =
        get_bfs_path m start target blocked) ∧
    (∀ (m : MapD) (target : Pos) (bots bots' : List Pos) (fuel : Nat)
      (q : List QEntry) (vis : List Pos),
      (∀ e ∈ q, e.2 ≠ none) →
      copyBfsAux m bots target fuel q vis =
        copyBfsAux m bots' target fuel q vis) :=
  ⟨fun _ start _ _ => get_bfs_path_restrict start,
   fun _ _ _ _ fuel q vis h => copyBfsAux_bots_irrel fuel q vis h⟩

/-- Claim C3's amended theorem at a concrete input: once the corridor
queue's single entry carries a first step, `copy.py`'s BFS loop gives the
same answer whether the bot-position set is `{(2,0)}` or empty. -/
theorem claim_C3_amended_witness :
    copyBfsAux corridorMap [((2 : Int), (0 : Int))] (4, 0) 5
        [(((1 : Int), (0 : Int)), some (1, 0))] [(1, 0)] =
      copyBfsAux corridorMap [] (4, 0) 5
        [(((1 : Int), (0 : Int)), some (1, 0))] [(1, 0)] :=
  claim_C3_amended.2 corridorMap (4, 0) [(2, 0)] [] 5
    [((1, 0), some (1, 0))] [(1, 0)] (by decide)

/-- Claim C3's counterexample: on the 5×1 corridor with `(2,0)` blocked,
`balanced_bot.get_bfs_path` finds no path from `(0,0)` to (adjacent to)
`(4,0)` even though the only route traverses the blocked cell at step two
and a fully walkable path exists — so blocking is *not* first-step-only
there; `copy.get_bfs_path` on the same scenario does return the first
step `(1,0)`. -/
theorem claim_C3_counterexample :
    get_bfs_path corridorMap (0, 0) (4, 0) [(2, 0)] = none ∧
    copy_get_bfs_path corridorMap [(0, 0), (2, 0)] (0, 0) (4, 0) =
      some (1, 0) ∧
    ReachableFrom corridorMap [] (0, 0) (3, 0) ∧
    cheb (3, 0) (4, 0) ≤ 1 := by
  refine ⟨rfl, rfl, ?_, by decide⟩
  have h1 : ReachableFrom corridorMap [] (0, 0) (1, 0) :=
    Relation.ReflTransGen.single (by decide)
  have h2 : ReachableFrom corridorMap [] (0, 0) (2, 0) :=
    Relation.ReflTransGen.tail h1 (by decide)
  exact Relation.ReflTransGen.tail h2 (by decide)

/-- Claim C4: `balanced_bot.get_bfs_path` returns `(0,0)` when the start
is already Chebyshev-adjacent to the target, `none` exactly when no
walkable path (respecting the blocked set) reaches a target-adjacent
cell, and otherwise one of the eight unit steps; on the open 10×10 grid
from `(0,0)` to `(5,5)` it returns `(1,1)`, which strictly decreases the
Chebyshev distance. -/
theorem claim_C4 :
    (∀ (m : MapD) (start target : Pos) (blocked : List Pos),
      (cheb start target ≤ 1 →
        get_bfs_path m start target blocked = some (0, 0)) ∧
      (get_bfs_path m start target blocked = none ↔
        ¬ ∃ p, ReachableFrom m blocked start p ∧ cheb p target ≤ 1) ∧
      (∀ s, get_bfs_path m start target blocked = some s →
        ¬ cheb start target ≤ 1 →
        s ∈ deltas ∧ s ≠ ((0 : Int), (0 : Int)))) ∧
    (get_bfs_path openMap10 (0, 0) (5, 5) [] = some (1, 1) ∧
      cheb ((0 : Int) + 1, (0 : Int) + 1) (5, 5) < cheb (0, 0) (5, 5)) := by
  refine ⟨fun m start target blocked =>
    ⟨fun h => get_bfs_path_adjacent h, get_bfs_path_none_iff,
     fun s hres hna => ?_⟩, by rfl, by decide⟩
  obtain ⟨hmem, -⟩ := get_bfs_path_step hres hna
  refine ⟨hmem, fun heq => ?_⟩
  rw [heq] at hmem
  exact absurd hmem (by decide)

/-- Claim C4's contract at concrete inputs: an adjacent start returns
`(0,0)`, and the step returned on the open grid is one of the eight unit
deltas. -/
theorem claim_C4_witness :
    get_bfs_path openMap10 (0, 0) (1, 1) [] = some (0, 0) ∧
    ((1, 1) ∈ deltas ∧ (((1 : Int), (1 : Int)) : Pos) ≠ (0, 0)) :=
  ⟨(claim_C4.1 openMap10 (0, 0) (1, 1) []).1 (by decide),
   (claim_C4.1 openMap10 (0, 0) (5, 5) []).2.2 (1, 1) (by rfl) (by decide)⟩

/-- Claim C2 (amended): stickiness holds only while no active order
outscores the stored one — when the stored order `K` is listed active,
unexpired, and score-maximal, `balanced_bot.play_turn`'s selection block
leaves the scheduler unchanged.  (The unconditional claim is refuted by
`claim_C2_counterexample`: a higher-scoring active order triggers a
switch.) -/
theorem claim_C2_amended (fts : List FoodSpec) (s : Sched)
    (orders : List OrderD) (now : Int) (co od : OrderD) (K : Int)
    (hco : s.current_order = some co)
    (hid : s.current_order_id = some K)
    (hod : get_order_by_id orders (some K) = some od)
    (hact : od.is_active = true)
    (hexp : is_order_expired (some od) now = false)
    (hbest : ∀ o ∈ orders, o.is_active = true →
      (order_score fts o now).1 ≤ (order_score fts co now).1) :
    updateOrderSelection fts s orders now = s ∧
    (updateOrderSelection fts s orders now).current_order_id = some K := by
  have hmain : updateOrderSelection fts s orders now = s := by
    unfold updateOrderSelection
    cases hsel : select_best_order fts orders now with
    | none => rfl
    | some b =>
      dsimp only
      rw [hid, hod, hco, hexp]
      dsimp only
      rw [hact]
      rw [if_neg (Option.some_ne_none co)]
      rw [if_neg Bool.false_ne_true]
      by_cases hbk : b.order_id = K
      · rw [if_neg (not_not_intro (congrArg some hbk))]
        rfl
      · rw [if_pos (fun h => hbk (Option.some_inj.mp h))]
        simp only [Bool.not_true]
        rw [if_neg Bool.false_ne_true]
        obtain ⟨hmem, hbact, -⟩ := select_best_order_spec hsel
        have hle := hbest b hmem hbact
        rw [decide_eq_false (not_lt.mpr hle)]
        rfl
  exact ⟨hmain, by rw [hmain]; exact hid⟩

/-- Claim C2's amended theorem at a concrete input: locked on `orderK`
with `orderK` the only (hence maximal) active order, the selection block
keeps the scheduler as it is. -/
theorem claim_C2_amended_witness :
    updateOrderSelection specFoodTypes schedK [orderK] 90 = schedK ∧
    (updateOrderSelection specFoodTypes schedK [orderK] 90).current_order_id
      = some 1 :=
  claim_C2_amended specFoodTypes schedK [orderK] 90 orderK orderK 1
    rfl rfl rfl rfl rfl
    (fun o ho _ => le_of_eq (by rw [List.mem_singleton.mp ho]))

/-- Claim C2's counterexample: the scheduler is locked on order id `1`
(`orderK`), which is listed active and unexpired — yet because the active
order `orderJ` scores higher, the selection block switches the current
order id to `2`. -/
theorem claim_C2_counterexample :
    schedK.current_order_id = some 1 ∧
    get_order_by_id [orderK, orderJ] (some 1) = some orderK ∧
    orderK.is_active = true ∧
    is_order_expired (some orderK) 90 = false ∧
    (order_score specFoodTypes orderK 90).1 <
      (order_score specFoodTypes orderJ 90).1 ∧
    (updateOrderSelection specFoodTypes schedK
      [orderK, orderJ] 90).current_order_id = some 2 :=
  ⟨rfl, rfl, rfl, rfl, score_K_lt_J, update_KJ⟩

/-- Claim C6 (amended): the closed form `balanced_bot.order_score`
actually computes — the primary key is
`reward − 0.5·(sum of buy costs of all required ingredients) −
(sum of per-ingredient time estimates)`, with no division by remaining
time, no plate cost and no availability or affordability terms; the
remaining time enters only as the negated tie-break key. -/
theorem claim_C6_amended (fts : List FoodSpec) (o : OrderD) (now : Int) :
    order_score fts o now =
      (((o.reward : ℚ) -
          (1 / 2 : ℚ) * (((o.required.map (costOf fts)).sum : Int) : ℚ) -
          (((o.required.map (timeOf fts)).sum : Int) : ℚ)),
        -(max 0 (o.expires_turn - now))) := by
  unfold order_score
  dsimp only
  rw [estimate_order_cost_eq, estimate_order_time_eq]
  refine Prod.ext_iff.mpr ⟨?_, rfl⟩
  dsimp only
  ring

/-- Claim C6's counterexample: for `order6` (MEAT + ONIONS, reward 30,
expiring at turn 100) at turn 90, the claimed formula with
`missing_cost = 10 + 5 + 2 = 17` gives `13/10`, but `order_score`'s
primary key is `30 − 0.5·15 − 8 = 29/2`. -/
theorem claim_C6_counterexample :
    estimate_order_cost specFoodTypes order6 + specPlateCost = 17 ∧
    (order_score specFoodTypes order6 90).1 = 29 / 2 ∧
    specOrderScoreClaimed (order6.reward : ℚ) 17 0 order6.expires_turn 90 =
      13 / 10 ∧
    (order_score specFoodTypes order6 90).1 ≠
      specOrderScoreClaimed (order6.reward : ℚ) 17 0 order6.expires_turn
        90 := by
  have hc : estimate_order_cost specFoodTypes order6 = 15 := rfl
  have ht : estimate_order_time specFoodTypes order6 = 8 := rfl
  have h1 : (order_score specFoodTypes order6 90).1 = 29 / 2 := by
    unfold order_score
    dsimp only
    rw [hc, ht]
    show ((30 : Int) : ℚ) - (1 / 2 : ℚ) * ((15 : Int) : ℚ) -
        (1 : ℚ) * ((8 : Int) : ℚ) = 29 / 2
    norm_num
  have h2 : specOrderScoreClaimed (order6.reward : ℚ) 17 0
      order6.expires_turn 90 = 13 / 10 := by
    unfold specOrderScoreClaimed
    rw [show (max 1 (order6.expires_turn - 90) : Int) = 10 from rfl]
    show (((30 : Int) : ℚ) - 17 - 0) / ((10 : Int) : ℚ) = 13 / 10
    norm_num
  refine ⟨rfl, h1, h2, ?_⟩
  rw [h1, h2]
  norm_num

/-- Claim C8: `balanced_bot.select_best_order` returns `none` exactly when
the order list has no active order, and otherwise returns an active listed
order that is maximal — no active order beats it in the scoring tuple
order, and in particular none has a larger primary score. -/
theorem claim_C8 (fts : List FoodSpec) (orders : List OrderD) (now : Int) :
    (select_best_order fts orders now = none ↔
      ∀ o ∈ orders, o.is_active = false) ∧
    (∀ o, select_best_order fts orders now = some o →
      o ∈ orders ∧ o.is_active = true ∧
      ∀ o' ∈ orders, o'.is_active = true →
        tupLt (order_score fts o now) (order_score fts o' now) = false ∧
        (order_score fts o' now).1 ≤ (order_score fts o now).1) := by
  refine ⟨select_best_order_none_iff orders, fun o h => ?_⟩
  obtain ⟨hmem, hact, hmax⟩ := select_best_order_spec h
  refine ⟨hmem, hact, fun o' ho' hact' => ⟨hmax o' ho' hact', ?_⟩⟩
  by_contra hlt
  push_neg at hlt
  have hture := (tupLt_iff (order_score fts o now)
    (order_score fts o' now)).mpr (Or.inl hlt)
  rw [hmax o' ho' hact'] at hture
  exact Bool.false_ne_true hture

/-- Claim C8 at concrete inputs: the empty order list yields `none`, and
on `[orderK, orderJ]` the selector's answer `orderJ` is active, listed and
maximal. -/
theorem claim_C8_witness :
    select_best_order specFoodTypes [] 90 = none ∧
    (orderJ ∈ [orderK, orderJ] ∧ orderJ.is_active = true ∧
      ∀ o' ∈ [orderK, orderJ], o'.is_active = true →
        tupLt (order_score specFoodTypes orderJ 90)
            (order_score specFoodTypes o' 90) = false ∧
        (order_score specFoodTypes o' 90).1 ≤
          (order_score specFoodTypes orderJ 90).1) :=
  ⟨(claim_C8 specFoodTypes [] 90).1.mpr (by simp),
   (claim_C8 specFoodTypes [orderK, orderJ] 90).2 orderJ select_KJ⟩

/-- Claim C10: `balanced_bot.analyze_order` is idempotent on the stored
order id, and otherwise partitions the recognized required ingredients —
cookable ones into the cooked category, else choppable into chopped, else
simple — so the three category lengths sum to the number of recognized
required ingredients. -/
theorem claim_C10 (fts : List FoodSpec) (s : Sched) (o : OrderD) :
    (s.current_order_id = some o.order_id → analyze_order fts s o = s) ∧
    (s.current_order_id ≠ some o.order_id →
      (analyze_order fts s o).cooked_ingredients =
        (recognized fts o.required).filter (fun ft => ft.can_cook) ∧
      (analyze_order fts s o).chopped_ingredients =
        (recognized fts o.required).filter
          (fun ft => !ft.can_cook && ft.can_chop) ∧
      (analyze_order fts s o).simple_ingredients =
        (recognized fts o.required).filter
          (fun ft => !ft.can_cook && !ft.can_chop) ∧
      (analyze_order fts s o).cooked_ingredients.length +
        (analyze_order fts s o).chopped_ingredients.length +
        (analyze_order fts s o).simple_ingredients.length =
        (recognized fts o.required).length) := by
  constructor
  · intro h
    unfold analyze_order
    rw [if_pos h]
  · intro h
    unfold analyze_order
    rw [if_neg h]
    dsimp only
    rw [categorize_eq]
    dsimp only
    exact ⟨rfl, rfl, rfl, recognized_partition_length _⟩

/-- Claim C10 at concrete inputs: re-analyzing the stored `orderK` leaves
`schedK` unchanged, and analyzing the fresh `orderJ` partitions its
recognized ingredients across the three categories. -/
theorem claim_C10_witness :
    analyze_order specFoodTypes schedK orderK = schedK ∧
    (analyze_order specFoodTypes schedK orderJ).cooked_ingredients.length +
      (analyze_order specFoodTypes schedK
        orderJ).chopped_ingredients.length +
      (analyze_order specFoodTypes schedK
        orderJ).simple_ingredients.length =
      (recognized specFoodTypes orderJ.required).length :=
  ⟨(claim_C10 specFoodTypes schedK orderK).1 rfl,
   ((claim_C10 specFoodTypes schedK orderJ).2 (by decide)).2.2.2⟩

/-- Claim C5: every action primitive issued by the `balanced_bot` provider
state-1 fragment (the cited lines 370–374) goes to a bot whose current
position is Chebyshev-adjacent to the action's target — `buy` is issued
only after `move_towards` returns `True`; and the cited `real_bot`
fragment can issue no action at all, because `BotPlayer.__init__` raises
`KeyError("BOX")` on every map before any turn is played. -/
theorem claim_C5 :
    (∀ (m : MapD) (curr fut : List (Nat × Pos)) (b : Nat) (s : Sched)
      (holding : Bool) (shopLoc : Option Pos) (money panCost : Int)
      (out : List ActionCall × Sched × List (Nat × Pos)),
      providerState1 m curr fut b s holding shopLoc money panCost =
        Except.ok out →
      ∀ a ∈ out.1, a.bot = b ∧
        ∃ bp, lookupPos curr b = some bp ∧ cheb bp a.loc ≤ 1) ∧
    (∀ mt : MapT, realBotInit mt = Except.error (PyErr.keyError "BOX")) := by
  refine ⟨?_, realBotInit_keyError⟩
  intro m curr fut b s holding shopLoc money panCost out h a ha
  unfold providerState1 at h
  split at h
  · cases h
  · rename_i bp hl
    split at h
    · cases h; simp at ha
    · split at h
      · rename_i sh
        split at h
        · split at h
          · cases h
          · rename_i r hmv
            split at h
            · rename_i hr1
              cases h
              have ha' : a = ⟨"buy", b, sh⟩ := List.mem_singleton.mp ha
              obtain ⟨bp', hl', hdisj⟩ := move_towards_spec hmv
              rcases hdisj with ⟨-, -, hadj, -⟩ | ⟨hf, -⟩
              · rw [ha']
                exact ⟨rfl, bp', hl', hadj⟩
              · rw [hr1] at hf
                cases hf
            · cases h; simp at ha
        · cases h; simp at ha
      · cases h; simp at ha

/-- Claim C5's provider fragment at a concrete input: bot 7 at `(4,1)`,
adjacent to the shop `(4,0)`, issues the pan `buy` there. -/
theorem claim_C5_witness :
    (⟨"buy", 7, ((4 : Int), (0 : Int))⟩ : ActionCall).bot = 7 ∧
    ∃ bp, lookupPos [(7, (((4 : Int), (1 : Int)) : Pos))] 7 = some bp ∧
      cheb bp ((4 : Int), (0 : Int)) ≤ 1 :=
  claim_C5.1 openMap10 [(7, (4, 1))] [] 7 schedK false (some (4, 0)) 100 2
    ([⟨"buy", 7, (4, 0)⟩], schedK, [(7, (4, 1))]) rfl
    ⟨"buy", 7, (4, 0)⟩ (List.mem_singleton.mpr rfl)

/-- Claim C7 (amended): `get_idle_tile` returns its cache verbatim when
set; otherwise it returns the *first* tile in row-major scan order that is
walkable and not Chebyshev-adjacent to a critical location — with no
reference to the agent's position, hence no nearest-tile guarantee (the
distance claim is refuted by `claim_C7_counterexample`). -/
theorem claim_C7_amended :
    (∀ (m : MapD) (tiles : Int → Int → Option TileD) (c : Pos)
      (shop cooker submit : Option Pos),
      get_idle_tile m tiles (some c) shop cooker submit = some c) ∧
    (∀ (m : MapD) (tiles : Int → Int → Option TileD)
      (shop cooker submit : Option Pos) (t : Pos),
      get_idle_tile m tiles none shop cooker submit = some t →
      idleOk tiles ([shop, cooker, submit].filterMap id) t = true ∧
      ∃ pre post, scanOrder m = pre ++ t :: post ∧
        ∀ p ∈ pre,
          idleOk tiles ([shop, cooker, submit].filterMap id) p = false) :=
  ⟨fun _ _ _ _ _ _ => rfl,
   fun _ _ _ _ _ _ h => find?_first h⟩

/-- Claim C7's amended theorem at a concrete input: on the open 4×4 grid
with the single critical location `(0,3)`, the returned tile `(0,0)` is
the qualifying tile that every earlier scan-order tile fails. -/
theorem claim_C7_amended_witness :
    idleOk idleTiles [(((0 : Int), (3 : Int)) : Pos)] (0, 0) = true ∧
    ∃ pre post, scanOrder idleMap = pre ++ ((0 : Int), (0 : Int)) :: post ∧
      ∀ p ∈ pre,
        idleOk idleTiles [(((0 : Int), (3 : Int)) : Pos)] p = false :=
  claim_C7_amended.2 idleMap idleTiles (some (0, 3)) none none (0, 0) rfl

/-- Claim C7's counterexample: for an agent standing at `(3,0)` on the
open 4×4 grid with critical location `(0,3)`, the tile `(3,0)` itself
qualifies at Chebyshev distance 0, yet `get_idle_tile` returns `(0,0)` at
distance 3 — the first qualifying tile in scan order, not the nearest
one. -/
theorem claim_C7_counterexample :
    get_idle_tile idleMap idleTiles none (some (0, 3)) none none =
      some (0, 0) ∧
    idleOk idleTiles [(((0 : Int), (3 : Int)) : Pos)] (3, 0) = true ∧
    cheb (3, 0) (3, 0) < cheb (3, 0) ((0 : Int), (0 : Int)) :=
  ⟨rfl, by decide, by decide⟩

/-- Claim C9 (amended): the `target_enum` error branch is *not* reachable
from the public interface.  `BotPlayer.__init__` raises `KeyError("BOX")`
on every map; and even on a hypothetical constructed instance,
`play_assembler_bot` always faults at line 143 (unpacking
`self.locations["SHOP"][0]`) before line 186 is reached, so no evaluation
through `play_turn` ever raises the claimed `NameError`. -/
theorem claim_C9_amended :
    (∀ mt : MapT, realBotInit mt = Except.error (PyErr.keyError "BOX")) ∧
    (∀ (w : RWorld) (s : RState) (b : Nat),
      ∃ e, realPlayAssemblerBot w s b = Except.error e ∧
        ∀ n, e ≠ PyErr.nameError n) ∧
    (∀ (w : RWorld) (s : RState) (n : String),
      realPlayTurn w s ≠ Except.error (PyErr.nameError n)) :=
  ⟨realBotInit_keyError, realPlayAssemblerBot_faults,
   realPlayTurn_no_nameError⟩

/-- Claim C9's amended theorem at concrete inputs: `__init__` on the
scenario map raises `KeyError("BOX")`, and the scenario `play_turn` call
does not raise `NameError("target_enum")`. -/
theorem claim_C9_amended_witness :
    realBotInit realMapT = Except.error (PyErr.keyError "BOX") ∧
    realPlayTurn realWorld0 realState0 ≠
      Except.error (PyErr.nameError "target_enum") :=
  ⟨claim_C9_amended.1 realMapT,
   claim_C9_amended.2.2 realWorld0 realState0 "target_enum"⟩

/-- Claim C9's counterexample: in the scenario the assembler bot 2 stands
at `(3,0)`, Chebyshev-adjacent to the shop `(4,0)`, holding nothing — the
claim's premises — yet `play_turn` raises the line-143 `TypeError`
(unpacking an `int`), not the claimed `NameError("target_enum")`. -/
theorem claim_C9_counterexample :
    cheb (realWorld0.botPos 2) ((4 : Int), (0 : Int)) ≤ 1 ∧
    realWorld0.botHolding 2 = none ∧
    valOf realState0.locations "SHOP" = some (4, 0) ∧
    realPlayTurn realWorld0 realState0 =
      Except.error (PyErr.typeError "cannot unpack non-iterable int") ∧
    PyErr.typeError "cannot unpack non-iterable int" ≠
      PyErr.nameError "target_enum" :=
  ⟨by decide, rfl, rfl, rfl, by decide⟩

end KitchenBots
